import Mathlib

/-!
# updater: configuration loading and logger set-up

A shallow embedding of `src/main.go` (package `main` of `arnevm123/updater`).

Go strings are byte sequences; they are embedded as lists of natural numbers
(a Go string is such a list with every element below 256; nothing below relies
on that bound, an element of 256 or more is treated like any other non-ASCII
byte).  Process-wide state (the default `slog` logger, the two output streams)
is threaded explicitly through a `World` value, and the three ways a Go
function can stop (return, `panic`, `os.Exit`) are the constructors of `Exec`.

The standard-library and `ff` functions that `main.go` calls are embedded next
to the code that calls them; each says which library function it stands for.
File paths follow the Unix implementation of `path/filepath`.
-/

namespace Updater

/-! ## Strings -/

/-- A Go `string`: its bytes. -/
abbrev GoString := List Nat

/-- The rune `utf8.RuneError` (U+FFFD). -/
def RuneError : Nat := 0xFFFD

/-- `utf8.AppendRune`: the UTF-8 bytes of rune `r`; a surrogate or a value
above U+10FFFF is written as `RuneError`. -/
def encodeRune (r : Nat) : GoString :=
  if r < 0x80 then [r]
  else if r < 0x800 then [0xC0 + r / 64, 0x80 + r % 64]
  else if (0xD800 ≤ r ∧ r ≤ 0xDFFF) ∨ 0x10FFFF < r then [0xEF, 0xBF, 0xBD]
  else if r < 0x10000 then [0xE0 + r / 4096, 0x80 + r / 64 % 64, 0x80 + r % 64]
  else [0xF0 + r / 262144, 0x80 + r / 4096 % 64, 0x80 + r / 64 % 64, 0x80 + r % 64]

/-- A string literal of the source as a Go string (its UTF-8 bytes). -/
def lit (s : String) : GoString :=
  s.data.flatMap fun c => encodeRune c.toNat

/-- Whether `b` is a byte in the range `lo..hi`. -/
def inRange (lo hi b : Nat) : Bool := decide (lo ≤ b) && decide (b ≤ hi)

/-- `utf8.DecodeRuneInString`: the first rune of `s` and its width in bytes.
An empty string gives `(RuneError, 0)`, an invalid or truncated encoding
`(RuneError, 1)`. The accepted range of the second byte depends on the first
(`E0`: `A0..BF`, `ED`: `80..9F`, `F0`: `90..BF`, `F4`: `80..8F`). -/
def DecodeRuneInString : GoString → Nat × Nat
  | [] => (RuneError, 0)
  | b0 :: rest =>
    if b0 < 0x80 then (b0, 1)
    else if inRange 0xC2 0xDF b0 then
      match rest with
      | b1 :: _ =>
        if inRange 0x80 0xBF b1 then (b0 % 32 * 64 + b1 % 64, 2) else (RuneError, 1)
      | [] => (RuneError, 1)
    else if inRange 0xE0 0xEF b0 then
      match rest with
      | b1 :: b2 :: _ =>
        if inRange (if b0 = 0xE0 then 0xA0 else 0x80) (if b0 = 0xED then 0x9F else 0xBF) b1
            && inRange 0x80 0xBF b2 then
          ((b0 % 16 * 64 + b1 % 64) * 64 + b2 % 64, 3)
        else (RuneError, 1)
      | _ => (RuneError, 1)
    else if inRange 0xF0 0xF4 b0 then
      match rest with
      | b1 :: b2 :: b3 :: _ =>
        if inRange (if b0 = 0xF0 then 0x90 else 0x80) (if b0 = 0xF4 then 0x8F else 0xBF) b1
            && inRange 0x80 0xBF b2 && inRange 0x80 0xBF b3 then
          (((b0 % 8 * 64 + b1 % 64) * 64 + b2 % 64) * 64 + b3 % 64, 4)
        else (RuneError, 1)
      | _ => (RuneError, 1)
    else (RuneError, 1)

/-- The runes a `for _, c := range s` loop visits, in order. One unit of
`fuel` is spent per rune; every rune is at least one byte wide, so
`s.length` units always suffice. -/
def rangeRunes : Nat → GoString → List Nat
  | 0, _ => []
  | _, [] => []
  | fuel + 1, b :: rest =>
    let d := DecodeRuneInString (b :: rest)
    d.1 :: rangeRunes fuel (rest.drop (d.2 - 1))

/-- `strings.Map(mapping, s)` for a mapping that never returns a negative
rune: every rune of `s` is replaced by its image, re-encoded. -/
def Map (mapping : Nat → Nat) (s : GoString) : GoString :=
  (rangeRunes s.length s).flatMap fun c => encodeRune (mapping c)

/-- The ASCII branch of `unicode.ToLower` and of `strings.ToLower`:
`'A'..'Z'` move to `'a'..'z'`. -/
def lowerASCII (c : Nat) : Nat :=
  if 0x41 ≤ c ∧ c ≤ 0x5A then c + 0x20 else c

/-- `unicode.ToLower(r)`. For a rune above `unicode.MaxASCII` the result comes
from the table `unicode.CaseRanges`, which is data of the Go distribution:
`caseRanges r` stands for `unicode.To(unicode.LowerCase, r)` on such runes. -/
def unicodeToLower (caseRanges : Nat → Nat) (r : Nat) : Nat :=
  if r ≤ 0x7F then lowerASCII r else caseRanges r

/-- `strings.ToLower(s)`: an all-ASCII string is lowered byte by byte, any
other string goes through `strings.Map(unicode.ToLower, s)`. -/
def ToLower (caseRanges : Nat → Nat) (s : GoString) : GoString :=
  if s.all (fun c => decide (c < 0x80)) then s.map lowerASCII
  else Map (unicodeToLower caseRanges) s

/-! ## Log levels (`main.go`, lines 21-38 and 117-128) -/

/-- A `slog.Level`: an integer severity rank. -/
abbrev Level := Int

def LevelDebug : Level := -4
def LevelInfo : Level := 0
def LevelWarn : Level := 4
def LevelError : Level := 8

/-- These are the valid log levels, the first one is the default. -/
def logLevels : List GoString :=
  [ lit "info", lit "trace", lit "debug", lit "warn", lit "error",
    lit "TRACE", lit "INFO", lit "DEBUG", lit "WARN", lit "ERROR",
    lit "Trace", lit "Info", lit "Debug", lit "Warn", lit "Error" ]

/-- `getLogLevel` of `main.go`: a switch on `strings.ToLower(levelStr)`. -/
def getLogLevel (caseRanges : Nat → Nat) (levelStr : GoString) : Level :=
  let l := ToLower caseRanges levelStr
  if l = lit "debug" then LevelDebug
  else if l = lit "warn" then LevelWarn
  else if l = lit "error" then LevelError
  else LevelInfo

/-- Equality of two strings up to the case of ASCII letters. -/
def eqIgnoreCase (s t : GoString) : Bool :=
  decide (s.map lowerASCII = t.map lowerASCII)

/-- A byte that can occur in a keyword of `getLogLevel`: ASCII, and neither
`i` nor `k` (the two ASCII letters that are the lower case of a non-ASCII
rune, U+0130 and U+212A). -/
def plainByte (b : Nat) : Prop := b < 0x80 ∧ b ≠ 0x69 ∧ b ≠ 0x6B

/-- What is known of `unicode.CaseRanges`: a rune above ASCII is lowered to a
rune above ASCII, except that U+0130 and U+212A are lowered to `i` and `k`. -/
def CaseTable (caseRanges : Nat → Nat) : Prop :=
  ∀ r, 0x80 ≤ r → 0x80 ≤ caseRanges r ∨ caseRanges r = 0x69 ∨ caseRanges r = 0x6B

/-- A table with the two exceptional runes and nothing else. -/
def sampleCaseRanges (r : Nat) : Nat :=
  if r = 0x130 then 0x69 else if r = 0x212A then 0x6B else r

/-! ## Errors -/

/-- A Go `error` value, as far as `main.go` can tell errors apart: the
sentinel `ff.ErrHelp`, any other leaf error with its message, and an error
that wraps another one (`fmt.Errorf` with `%w`) with its full message. -/
inductive GoError where
  | ErrHelp
  | errorString (s : GoString)
  | wrapError (msg : GoString) (err : GoError)
  deriving DecidableEq, Repr

/-- The method `Error()`. -/
def GoError.Error : GoError → GoString
  | .ErrHelp => lit "flag: help requested"
  | .errorString s => s
  | .wrapError msg _ => msg

/-- `errors.New(text)`. -/
def errorsNew (text : GoString) : GoError := .errorString text

/-- `fmt.Errorf(prefix + "%w", err)`: wraps `err`, the message is the prefix
followed by the message of `err`. -/
def Errorf (pre : GoString) (err : GoError) : GoError :=
  .wrapError (pre ++ err.Error) err

/-- `errors.Is(err, ff.ErrHelp)`: whether the sentinel is `err` itself or is
reached by unwrapping it. -/
def IsErrHelp : GoError → Bool
  | .ErrHelp => true
  | .errorString _ => false
  | .wrapError _ err => IsErrHelp err

deriving instance DecidableEq for Except

/-! ## Paths (`path/filepath`, Unix) -/

/-- The path separator `/`. -/
def Separator : Nat := 0x2F

/-- The byte `.`. -/
def Dot : Nat := 0x2E

/-- The slice expression `s[i:j]`. -/
def slice (s : GoString) (i j : Nat) : GoString := (s.drop i).take (j - i)

/-- The backtracking loop of `filepath.Clean` on a `..` element: from write
index `w`, step back while `w > dotdot` and `out[w]` is not a separator. -/
def backtrack (out : GoString) (dotdot : Nat) : Nat → Nat
  | 0 => 0
  | w + 1 =>
    if dotdot < w + 1 ∧ out.getD (w + 1) 0 ≠ Separator then backtrack out dotdot w else w + 1

/-- The main loop of `filepath.Clean`: `p` is the unread part of the path,
`out` the bytes written so far, `dotdot` the index `..` must not cross. Every
round reads at least one byte, so `p.length` units of fuel suffice. -/
def cleanLoop (rooted : Bool) : Nat → GoString → GoString → Nat → GoString
  | 0, _, out, _ => out
  | _, [], out, _ => out
  | fuel + 1, c :: p, out, dotdot =>
    if c = Separator then
      cleanLoop rooted fuel p out dotdot
    else if c = Dot ∧ (p = [] ∨ p.head? = some Separator) then
      cleanLoop rooted fuel p out dotdot
    else if c = Dot ∧ p.head? = some Dot ∧ (p.tail = [] ∨ p.tail.head? = some Separator) then
      if dotdot < out.length then
        cleanLoop rooted fuel p.tail (out.take (backtrack out dotdot (out.length - 1))) dotdot
      else if !rooted then
        let out1 := (if 0 < out.length then out ++ [Separator] else out) ++ [Dot, Dot]
        cleanLoop rooted fuel p.tail out1 out1.length
      else
        cleanLoop rooted fuel p.tail out dotdot
    else
      let out1 :=
        if (rooted ∧ out.length ≠ 1) ∨ (¬ rooted ∧ out.length ≠ 0) then out ++ [Separator]
        else out
      cleanLoop rooted fuel (p.dropWhile fun x => decide (x ≠ Separator))
        (out1 ++ c :: p.takeWhile fun x => decide (x ≠ Separator)) dotdot

/-- `filepath.Clean(path)`. -/
def Clean (path : GoString) : GoString :=
  if path = [] then [Dot]
  else
    let rooted := decide (path.head? = some Separator)
    let out :=
      if rooted then cleanLoop rooted path.length path.tail [Separator] 1
      else cleanLoop rooted path.length path [] 0
    if out = [] then [Dot] else out

/-- The index of the first separator of `s` at or after `i`, or `s.length`. -/
def elemEnd (s : GoString) (i : Nat) : Nat :=
  i + ((s.drop i).takeWhile fun x => decide (x ≠ Separator)).length

/-- The loop of `filepath.Rel` that walks `base` and `targ` element by element
up to the first pair of elements that differ; the state is `(b0, bi, t0, ti)`.
It is used for rooted paths only, see `Rel`. -/
def relLoop (base targ : GoString) : Nat → Nat × Nat × Nat × Nat → Nat × Nat × Nat × Nat
  | 0, st => st
  | fuel + 1, (b0, bi, t0, ti) =>
    if bi < base.length ∧ ti < targ.length then
      let bi1 := elemEnd base bi
      let ti1 := elemEnd targ ti
      if slice targ t0 ti1 ≠ slice base b0 bi1 then (b0, bi1, t0, ti1)
      else
        let bi2 := if bi1 < base.length then bi1 + 1 else bi1
        let ti2 := if ti1 < targ.length then ti1 + 1 else ti1
        relLoop base targ fuel (bi2, bi2, ti2, ti2)
    else (b0, bi, t0, ti)

/-- The error of `filepath.Rel`. -/
def relError (basepath targpath : GoString) : GoError :=
  errorsNew (lit "Rel: can't make " ++ targpath ++ lit " relative to " ++ basepath)

/-- `filepath.Rel(basepath, targpath)`. The walk below is the one of the
library for a rooted base path, the only kind `setupLogging` works with
(`os.Getwd` gives a rooted path). For two different paths that are both not
rooted the result is not modelled: it is taken from the parameter
`relUnrooted`. -/
def Rel (relUnrooted : GoString → GoString → Except GoError GoString)
    (basepath targpath : GoString) : Except GoError GoString :=
  let base := Clean basepath
  let targ := Clean targpath
  if targ = base then .ok [Dot]
  else
    let base := if base = [Dot] then [] else base
    let baseSlashed := decide (base.head? = some Separator)
    let targSlashed := decide (targ.head? = some Separator)
    if baseSlashed ≠ targSlashed then .error (relError basepath targpath)
    else if baseSlashed = false then relUnrooted basepath targpath
    else
      let (b0, bi, t0, _) := relLoop base targ (base.length + 1) (0, 0, 0, 0)
      if slice base b0 bi = [Dot, Dot] then .error (relError basepath targpath)
      else if b0 ≠ base.length then
        let seps := (slice base b0 base.length).count Separator
        let up := [Dot, Dot] ++ (List.replicate seps [Separator, Dot, Dot]).flatten
        if t0 ≠ targ.length then .ok (up ++ Separator :: targ.drop t0) else .ok up
      else .ok (targ.drop t0)

/-! ## Structured logging (`log/slog`) -/

/-- A `slog.Source`: the call site of a log statement. -/
structure Source where
  Function : GoString
  File : GoString
  Line : Nat
  deriving DecidableEq, Repr

/-- A `slog.Value`. `Source` is a value of kind `Any` that holds a
`*slog.Source`, where `none` is the nil pointer; `Level` is one that holds a
`slog.Level`, `Other` stands for a value of any other type, and `Nil` is the
zero `Value`. -/
inductive Value where
  | Nil
  | String (s : GoString)
  | Int64 (n : Int)
  | Time (t : Nat)
  | Level (l : Level)
  | Source (src : Option Source)
  | Other (tag : Nat)
  deriving DecidableEq, Repr

/-- A `slog.Attr`: a key and a value. -/
structure Attr where
  Key : GoString
  Value : Value
  deriving DecidableEq, Repr

/-- The keys of the built-in attributes. -/
def TimeKey : GoString := lit "time"
def LevelKey : GoString := lit "level"
def MessageKey : GoString := lit "msg"
def SourceKey : GoString := lit "source"

/-- The value given to `panic`: a string, an error, or the run-time error of
dereferencing a nil pointer. -/
inductive PanicValue where
  | str (s : GoString)
  | err (e : GoError)
  | nilDereference
  deriving DecidableEq, Repr

/-- Lines 103-105 of `main.go`: the source with its file made relative to
`baseDir`, or the source as it is when `filepath.Rel` fails. -/
def relativeSource (relUnrooted : GoString → GoString → Except GoError GoString)
    (baseDir : GoString) (src : Source) : Source :=
  match Rel relUnrooted baseDir src.File with
  | .ok rel => { src with File := rel }
  | .error _ => src

/-- The function literal that `setupLogging` stores in
`HandlerOptions.ReplaceAttr` (`main.go`, lines 100-109); `baseDir` is the
variable it captures. The type assertion succeeds for every `*slog.Source`,
also for the nil pointer, and reading `src.File` through the nil pointer
panics. The source is held by pointer: assigning `src.File` changes the
source the returned attribute refers to. -/
def ReplaceAttr (relUnrooted : GoString → GoString → Except GoError GoString)
    (baseDir : GoString) (a : Attr) : Except PanicValue Attr :=
  if a.Key = SourceKey then
    match a.Value with
    | .Source none => .error .nilDereference
    | .Source (some src) =>
      .ok { a with Value := .Source (some (relativeSource relUnrooted baseDir src)) }
    | _ => .ok a
  else .ok a

/-- The `slog.HandlerOptions` built by `setupLogging`. The field `ReplaceAttr`
is always the function literal above, so it is represented by the directory
that literal captured. -/
structure HandlerOptions where
  AddSource : Bool
  Level : Level
  baseDir : GoString
  deriving DecidableEq, Repr

/-- A `*slog.Logger`: the logger the package starts with, or a logger over a
text handler that writes to the standard output. -/
inductive Logger where
  | initial
  | text (opts : HandlerOptions)
  deriving DecidableEq, Repr

/-- The minimum level a logger lets through (`Handler.Enabled` compares the
level of a record with it); the initial logger lets `Info` and above through. -/
def Logger.threshold : Logger → Level
  | .initial => LevelInfo
  | .text opts => opts.Level

/-- One thing written to a stream: plain text, or the line of a log record,
given by its key/value items in the order they are written. -/
inductive Output where
  | text (s : GoString)
  | record (items : List Attr)
  deriving DecidableEq, Repr

/-- The process-wide state `main.go` reads and writes: the default logger of
package `slog` and what has been written to the two standard streams. -/
structure World where
  defaultLogger : Logger
  Stdout : List Output
  Stderr : List Output
  deriving DecidableEq, Repr

/-- The state a process starts in. -/
def World.start : World := { defaultLogger := .initial, Stdout := [], Stderr := [] }

/-- How a call ends: it returns, it panics, or it ends the process with
`os.Exit`; in each case with the state it leaves. -/
inductive Exec where
  | ret (w : World)
  | panic (v : PanicValue) (w : World)
  | exit (code : Int) (w : World)
  deriving DecidableEq, Repr

/-- The state a call leaves. -/
def Exec.world : Exec → World
  | .ret w => w
  | .panic _ w => w
  | .exit _ w => w

/-- The exit status of the process when `main` ends this way: 0 on return,
the argument of `os.Exit`, 2 for a panic that nothing recovers. -/
def Exec.status : Exec → Int
  | .ret _ => 0
  | .panic _ _ => 2
  | .exit code _ => code

/-- What a log call takes from its surroundings: the time and its call site. -/
structure Call where
  now : Nat
  src : Source
  deriving DecidableEq, Repr

/-- Whether an attribute is the zero `Attr`, which handlers leave out. -/
def Attr.isEmpty (a : Attr) : Bool := decide (a.Key = [] ∧ a.Value = .Nil)

/-- The attributes of a line, each passed through `replace` in turn; the
first panic of `replace` ends it. -/
def replaceAll (replace : Attr → Except PanicValue Attr) :
    List Attr → Except PanicValue (List Attr)
  | [] => .ok []
  | a :: rest =>
    match replace a with
    | .error v => .error v
    | .ok b =>
      match replaceAll replace rest with
      | .error v => .error v
      | .ok bs => .ok (b :: bs)

/-- The items of the line a record makes: time, level, source (with
`AddSource`; the handler builds it from the call site, it is never nil),
message, then the attributes of the call, each passed through `replace`; an
attribute that is empty after that is left out. How the handler prints the
values is not modelled. -/
def recordItems (addSource : Bool) (replace : Attr → Except PanicValue Attr) (c : Call)
    (level : Level) (msg : GoString) (attrs : List Attr) : Except PanicValue (List Attr) :=
  match replaceAll replace
      ([Attr.mk TimeKey (.Time c.now), Attr.mk LevelKey (.Level level)]
        ++ (if addSource then [Attr.mk SourceKey (.Source (some c.src))] else [])
        ++ [Attr.mk MessageKey (.String msg)] ++ attrs) with
  | .error v => .error v
  | .ok items => .ok (items.filter fun a => !a.isEmpty)

/-- `slog.Info(msg, attrs...)`: a record of level `Info` handed to the default
logger. A record below the threshold of the logger is dropped before it
reaches the handler. The text handler writes its line to the standard output
once the line is complete, so a panic of `ReplaceAttr` leaves nothing
written; the initial logger writes through package `log`, to the standard
error. -/
def Info (relUnrooted : GoString → GoString → Except GoError GoString) (c : Call)
    (msg : GoString) (attrs : List Attr) (w : World) : Exec :=
  if LevelInfo < w.defaultLogger.threshold then .ret w
  else
    match w.defaultLogger with
    | .initial =>
      match recordItems false Except.ok c LevelInfo msg attrs with
      | .error v => .panic v w
      | .ok items => .ret { w with Stderr := w.Stderr ++ [.record items] }
    | .text opts =>
      match recordItems opts.AddSource (ReplaceAttr relUnrooted opts.baseDir) c LevelInfo
          msg attrs with
      | .error v => .panic v w
      | .ok items => .ret { w with Stdout := w.Stdout ++ [.record items] }

/-- `slog.String(key, value)`. -/
def slogString (key value : GoString) : Attr := ⟨key, .String value⟩

/-- `setupLogging` of `main.go`. `Getwd` is what `os.Getwd()` returns when it
is called. `slog.SetDefault` makes the new logger the default one (it also
points the output of package `log` at it, which nothing here uses). -/
def setupLogging (caseRanges : Nat → Nat) (Getwd : Except GoError GoString)
    (levelStr : GoString) (w : World) : Exec :=
  match Getwd with
  | .error err => .panic (.err err) w
  | .ok baseDir =>
    let baseDir := Clean baseDir
    let handlerOpts : HandlerOptions :=
      { AddSource := true, Level := getLogLevel caseRanges levelStr, baseDir := baseDir }
    let logger := Logger.text handlerOpts
    .ret { w with defaultLogger := logger }

/-! ## Reading the configuration (`main.go`, lines 40-75) -/

/-- The type `config` of `main.go`. -/
structure config where
  logLevel : GoString
  deriving DecidableEq, Repr

/-- What a call of `ff.Parse` leaves behind: the error it returns (`none` for
`nil`) and the content of `cfg.logLevel`, the variable the flag `log_level`
was declared on. -/
structure ParseOutcome where
  err : Option GoError
  logLevel : GoString
  deriving DecidableEq, Repr

/-- `readProgramVariables` of `main.go`. `ffParse` stands for the call of
`ff.Parse` on the flag set and options of lines 50-64, as a function of the
arguments handed to it; `help` is the text of `ffhelp.Flags(fs)`. The result
is the pair `(cfg, err)`, together with the state the call leaves. -/
def readProgramVariables (ffParse : List GoString → ParseOutcome) (help : GoString)
    (args : List GoString) (w : World) : (config × Option GoError) × World :=
  if args.length < 1 then
    ((config.mk [], some (errorsNew (lit "not enough arguments provided to the program"))), w)
  else
    let out := ffParse (args.drop 1)
    match out.err with
    | some err =>
      if IsErrHelp err then
        ((config.mk [], some err), { w with Stderr := w.Stderr ++ [.text (help ++ [0x0A])] })
      else
        ((config.mk [], some (Errorf (lit "ff.Parse: ") err)), w)
    | none => ((config.mk out.logLevel, none), w)

/-! ## The flag parser (`github.com/peterbourgon/ff/v4`)

`main.go` declares two flags and calls `ff.Parse` with the options
`WithEnvVars`, `WithConfigFileFlag("config_file")`, `WithConfigFileParser`,
`WithConfigAllowMissingFile` and `WithConfigIgnoreUndefinedFlags`. The parser
is code of the `ff` module, which is not among the files of the repository.
The definitions of this section follow that module for the flag set of
`main.go`: the arguments are scanned from left to right, then the
environment is read, then the config file; a flag set by an earlier stage is
not set again by a later one. The wording of the error messages of the module
is not modelled: each error is a leaf with a short description, and only the
sentinel `ErrHelp` is told apart from the others.
-/

/-- The two flags declared in `readProgramVariables`. -/
inductive Flag where
  | config_file
  | log_level
  deriving DecidableEq, Repr

/-- Modelled from the spec: the state of the flag set of `main.go` during
`ff.Parse` (code of the `ff` module): the two variables the flags were
declared on, and for each flag whether a value has been given to it. -/
structure FlagSet where
  configFilePath : GoString
  logLevel : GoString
  configFileSet : Bool
  logLevelSet : Bool
  deriving DecidableEq, Repr

/-- Modelled from the spec: the flag set right after the two declarations
(code of the `ff` module). `config_file` has the default `""`; for the
enumeration `storesDefault` says whether the declaration stores the default,
the first valid value, in the variable, or leaves it empty. -/
def FlagSet.declared (storesDefault : Bool) : FlagSet :=
  { configFilePath := []
    logLevel := if storesDefault then logLevels.headD [] else []
    configFileSet := false
    logLevelSet := false }

/-- Modelled from the spec: giving a value to a flag (the method `Set` of the
flag values of the `ff` module). The enumeration accepts only a valid value. -/
def Flag.Set (f : Flag) (value : GoString) (fs : FlagSet) : Except GoError FlagSet :=
  match f with
  | .config_file => .ok { fs with configFilePath := value, configFileSet := true }
  | .log_level =>
    if value ∈ logLevels then .ok { fs with logLevel := value, logLevelSet := true }
    else .error (errorsNew (lit "log_level: invalid value"))

/-- Modelled from the spec: the flag with a given long name. -/
def findLongFlag (name : GoString) : Option Flag :=
  if name = lit "config_file" then some .config_file
  else if name = lit "log_level" then some .log_level
  else none

/-- Modelled from the spec: the flag with a given short name; only
`config_file` has one, `c`. -/
def findShortFlag (r : Nat) : Option Flag :=
  if r = 0x63 then some .config_file else none

/-- What one argument of the command line is, read on its own: no flag (it
does not start with `-`), the terminator `--`, a lone `-` (which the scan
passes over), a name that is not declared (`help` says whether the name is
`help`, in any case, or `h`), or a declared flag with the value attached to
it (`[]` when there is none). -/
inductive ArgKind where
  | positional
  | terminator
  | dash
  | unknown (help : Bool)
  | flag (f : Flag) (value : GoString)
  deriving DecidableEq, Repr

/-- Modelled from the spec: how the flag set reads one argument (the
functions `parseLongFlag` and `parseShortFlag` of the `ff` module). A long
flag is `--name` or `--name=value`, a short flag `-c` or `-cvalue`. -/
def argKind (arg : GoString) : ArgKind :=
  if arg.head? ≠ some 0x2D then .positional
  else if arg = lit "--" then .terminator
  else if arg.drop 1 = [] then .dash
  else if (arg.drop 1).head? = some 0x2D then
    let body := arg.drop 2
    let name := body.takeWhile fun x => decide (x ≠ 0x3D)
    match findLongFlag name with
    | none => .unknown (eqIgnoreCase name (lit "help"))
    | some f => .flag f ((body.dropWhile fun x => decide (x ≠ 0x3D)).drop 1)
  else
    match findShortFlag ((arg.drop 1).headD 0) with
    | none => .unknown (decide ((arg.drop 1).headD 0 = 0x68))
    | some f => .flag f (arg.drop 2)

/-- The result of scanning the arguments: all of them were consumed, the scan
stopped at an argument that is not a flag (or after `--`), or it failed. -/
inductive Scan where
  | done (fs : FlagSet)
  | stopped (fs : FlagSet) (rest : List GoString)
  | failed (fs : FlagSet) (err : GoError)
  deriving DecidableEq, Repr

/-- Modelled from the spec: the scan of the command line by the flag set
(`FlagSet.Parse` of the `ff` module). The spec gives the flags and their
forms; the order is that of the module: one argument after the other from the
left, and the first failure ends the scan. An argument that is no flag ends
the scan, and so does `--`. A flag without an attached value takes the next
argument as its value. A name that is not declared fails, with `ErrHelp` when
it is `help` or `h`. -/
def parseArgs : FlagSet → List GoString → Scan
  | fs, [] => .done fs
  | fs, arg :: args =>
    match argKind arg with
    | .positional => .stopped fs (arg :: args)
    | .terminator => .stopped fs args
    | .dash => parseArgs fs args
    | .unknown help => .failed fs (if help then .ErrHelp else errorsNew (lit "unknown flag"))
    | .flag f value =>
      if value ≠ [] then
        match f.Set value fs with
        | .ok fs1 => parseArgs fs1 args
        | .error err => .failed fs err
      else
        match args with
        | [] => .failed fs (errorsNew (lit "missing argument"))
        | v :: rest =>
          match f.Set v fs with
          | .ok fs1 => parseArgs fs1 rest
          | .error err => .failed fs err

/-- The state of the flag set a scan ends with. -/
def Scan.flagSet : Scan → FlagSet
  | .done fs => fs
  | .stopped fs _ => fs
  | .failed fs _ => fs

/-- What opening and reading the config file gives: no such file, another
error on opening it, a document that is not well-formed, or the pairs of flat
key and value the YAML parser of line 17 hands over, in the order it does. -/
inductive ConfigFile where
  | notExist
  | openError (err : GoError)
  | malformed (err : GoError)
  | pairs (kv : List (GoString × GoString))
  deriving DecidableEq, Repr

/-- What `ff.Parse` reads besides the arguments: the environment and the
file system; and `storesDefault`, see `FlagSet.declared`. -/
structure Sources where
  Getenv : GoString → GoString
  OpenConfig : GoString → ConfigFile
  storesDefault : Bool

/-- What a stage of `ff.Parse` leaves: the flag set, and its error if it failed. -/
abbrev Stage := FlagSet × Option GoError

/-- Modelled from the spec: a flag is given the value of an environment
variable when the variable is not empty and the command line has not set the
flag (`provided`; code of the `ff` module). -/
def setFromEnv (S : Sources) (provided : Bool) (f : Flag) (key : GoString)
    (fs : FlagSet) : Stage :=
  if provided ∨ S.Getenv key = [] then (fs, none)
  else
    match f.Set (S.Getenv key) fs with
    | .ok fs1 => (fs1, none)
    | .error err => (fs, some (Errorf (key ++ lit ": ") err))

/-- Modelled from the spec: the environment stage of `ff.Parse` with
`WithEnvVars()` (code of the `ff` module). The variable of a flag is its name
in upper case; the short and the long name both count. -/
def parseEnv (S : Sources) (fs : FlagSet) : Stage :=
  match setFromEnv S fs.configFileSet .config_file (lit "C") fs with
  | (fs1, some err) => (fs1, some err)
  | (fs1, none) =>
    match setFromEnv S fs.configFileSet .config_file (lit "CONFIG_FILE") fs1 with
    | (fs2, some err) => (fs2, some err)
    | (fs2, none) => setFromEnv S fs.logLevelSet .log_level (lit "LOG_LEVEL") fs2

/-- Modelled from the spec: the flag a key of the config file stands for: the
name of a flag, or the name of its environment variable (code of the `ff`
module). -/
def configTarget (name : GoString) : Option Flag :=
  if name = lit "config_file" ∨ name = lit "c" ∨ name = lit "CONFIG_FILE" ∨ name = lit "C" then
    some .config_file
  else if name = lit "log_level" ∨ name = lit "LOG_LEVEL" then some .log_level
  else none

/-- Whether the earlier stages have given flag `f` a value, from the two
marks taken before the config file is read. -/
def provided (configFileProvided logLevelProvided : Bool) : Flag → Bool
  | .config_file => configFileProvided
  | .log_level => logLevelProvided

/-- Modelled from the spec: the function `ff.Parse` hands to the config file
parser, applied to the pairs of the file in turn (code of the `ff` module). A
key that is no flag is ignored (`WithConfigIgnoreUndefinedFlags`); a flag that
the command line or the environment has set is not set again. -/
def setFromConfig (configFileProvided logLevelProvided : Bool) :
    FlagSet → List (GoString × GoString) → Stage
  | fs, [] => (fs, none)
  | fs, (name, value) :: kv =>
    match configTarget name with
    | none => setFromConfig configFileProvided logLevelProvided fs kv
    | some f =>
      if provided configFileProvided logLevelProvided f then
        setFromConfig configFileProvided logLevelProvided fs kv
      else
        match f.Set value fs with
        | .ok fs1 => setFromConfig configFileProvided logLevelProvided fs1 kv
        | .error err => (fs, some (Errorf (name ++ lit ": ") err))

/-- Modelled from the spec: the config file stage of `ff.Parse` (code of the
`ff` module). The path is the value of the flag `config_file`; without a path
no file is read, and a file that does not exist is no error
(`WithConfigAllowMissingFile`). -/
def parseConfig (S : Sources) (fs : FlagSet) : Stage :=
  if fs.configFilePath = [] then (fs, none)
  else
    match S.OpenConfig fs.configFilePath with
    | .notExist => (fs, none)
    | .openError err => (fs, some err)
    | .malformed err => (fs, some (Errorf (lit "parse config file: ") err))
    | .pairs kv =>
      match setFromConfig fs.configFileSet fs.logLevelSet fs kv with
      | (fs1, some err) => (fs1, some (Errorf (lit "parse config file: ") err))
      | (fs1, none) => (fs1, none)

/-- Modelled from the spec: `ff.Parse` on the flag set and options of
`main.go` (code of the `ff` module): command line first, environment second,
config file last. -/
def ff.Parse (S : Sources) (args : List GoString) : ParseOutcome :=
  match parseArgs (FlagSet.declared S.storesDefault) args with
  | .failed fs err => { err := some (Errorf (lit "parse args: ") err), logLevel := fs.logLevel }
  | scan =>
    match parseEnv S scan.flagSet with
    | (fs1, some err) =>
      { err := some (Errorf (lit "parse environment: ") err), logLevel := fs1.logLevel }
    | (fs1, none) =>
      match parseConfig S fs1 with
      | (fs2, err) => { err := err, logLevel := fs2.logLevel }

/-! ## The entry point (`main.go`, lines 77-89) -/

/-- What `main` takes from outside the program text: the flag parser, the
help text, the case table of package `unicode`, the result of `os.Getwd()`,
the part of `filepath.Rel` that is not modelled, and the time and call site of
its two log statements. -/
structure Host where
  ffParse : List GoString → ParseOutcome
  help : GoString
  caseRanges : Nat → Nat
  Getwd : Except GoError GoString
  relUnrooted : GoString → GoString → Except GoError GoString
  call1 : Call
  call2 : Call

/-- `main` of `main.go`, run on the arguments `os.Args`. -/
def main (h : Host) (Args : List GoString) (w : World) : Exec :=
  match readProgramVariables h.ffParse h.help Args w with
  | ((_, some err), w1) =>
    if IsErrHelp err then .exit 0 w1
    else .panic (.str (lit "Error reading program variables: " ++ err.Error)) w1
  | ((cfg, none), w1) =>
    match setupLogging h.caseRanges h.Getwd cfg.logLevel w1 with
    | .ret w2 =>
      match Info h.relUnrooted h.call1 (lit "Application started") [] w2 with
      | .ret w3 =>
        Info h.relUnrooted h.call2 (lit "Log level set to")
          [slogString (lit "level") cfg.logLevel] w3
      | stop => stop
    | stop => stop

/-! ## Notions used to state the properties -/

/-- The five level words. -/
def levelWords : List GoString :=
  [lit "info", lit "trace", lit "debug", lit "warn", lit "error"]

/-- The upper-case form of an ASCII letter. -/
def upperASCII (c : Nat) : Nat :=
  if 0x61 ≤ c ∧ c ≤ 0x7A then c - 0x20 else c

/-- The upper-case form of a word. -/
def upperCase (s : GoString) : GoString := s.map upperASCII

/-- The title-case form of a word: its first letter in upper case. -/
def titleCase : GoString → GoString
  | [] => []
  | c :: rest => upperASCII c :: rest

/-- The long name of a flag. -/
def Flag.name : Flag → GoString
  | .config_file => lit "config_file"
  | .log_level => lit "log_level"

/-- One flag as it is written on the command line: `--name value`,
`--name=value`, `-c value` or `-cvalue` (the short forms are `config_file`). -/
inductive CliFlag where
  | long (f : Flag) (value : GoString)
  | longEq (f : Flag) (value : GoString)
  | short (value : GoString)
  | shortJoined (value : GoString)
  deriving DecidableEq, Repr

/-- The arguments that write the flag. -/
def CliFlag.args : CliFlag → List GoString
  | .long f v => [lit "--" ++ f.name, v]
  | .longEq f v => [lit "--" ++ f.name ++ lit "=" ++ v]
  | .short v => [lit "-c", v]
  | .shortJoined v => [lit "-c" ++ v]

/-- The flag that is written. -/
def CliFlag.flag : CliFlag → Flag
  | .long f _ => f
  | .longEq f _ => f
  | .short _ => .config_file
  | .shortJoined _ => .config_file

/-- The value that is written. -/
def CliFlag.value : CliFlag → GoString
  | .long _ v => v
  | .longEq _ v => v
  | .short v => v
  | .shortJoined v => v

/-- A value attached to the name of its flag is not empty, and one attached
to the short name does not start with `=`. -/
def CliFlag.wellFormed : CliFlag → Prop
  | .long _ _ => True
  | .longEq _ v => v ≠ []
  | .short _ => True
  | .shortJoined v => v ≠ [] ∧ v.head? ≠ some 0x3D

/-- The value the command line gives to flag `f`: the last one written for it. -/
def givenValue (f : Flag) (given : List CliFlag) : Option GoString :=
  ((given.filter fun g => decide (g.flag = f)).map CliFlag.value).getLast?

/-- The flag set after the flags written on the command line have been
stored, one after the other. -/
def stored (fs : FlagSet) (given : List CliFlag) : FlagSet :=
  { configFilePath := (givenValue .config_file given).getD fs.configFilePath
    logLevel := (givenValue .log_level given).getD fs.logLevel
    configFileSet := fs.configFileSet || (givenValue .config_file given).isSome
    logLevelSet := fs.logLevelSet || (givenValue .log_level given).isSome }

/-- An argument list ends the scan where it starts: it is empty, or its first
argument does not start with `-`, or is `--`. -/
def EndsScan (rest : List GoString) : Prop :=
  rest = [] ∨ ∃ a t, rest = a :: t ∧ (a.head? ≠ some 0x2D ∨ a = lit "--")

/-- The value the environment gives to `log_level`: that of the variable
`LOG_LEVEL`, if it is not empty. -/
def envLogLevel (S : Sources) : Option GoString :=
  if S.Getenv (lit "LOG_LEVEL") = [] then none else some (S.Getenv (lit "LOG_LEVEL"))

/-- The value a list of config file pairs gives to `log_level`: that of the
last pair whose key is `log_level` (or `LOG_LEVEL`). -/
def lastLogLevel (kv : List (GoString × GoString)) : Option GoString :=
  ((kv.filter fun p => decide (p.1 = lit "log_level" ∨ p.1 = lit "LOG_LEVEL")).map
    Prod.snd).getLast?

/-- The path of the config file: the value written last for `config_file` on
the command line, otherwise the value of the environment variable
`CONFIG_FILE`, otherwise that of `C`; it is empty when none of them gives one. -/
def configPath (S : Sources) (given : List CliFlag) : GoString :=
  match givenValue .config_file given with
  | some v => v
  | none =>
    if S.Getenv (lit "CONFIG_FILE") = [] then S.Getenv (lit "C")
    else S.Getenv (lit "CONFIG_FILE")

/-- The value the config file gives to `log_level`, if there is a config
file and it gives one. -/
def fileLogLevel (S : Sources) (given : List CliFlag) : Option GoString :=
  if configPath S given = [] then none
  else
    match S.OpenConfig (configPath S given) with
    | .pairs kv => lastLogLevel kv
    | _ => none

/-- The first of three optional values that is present, else `dflt`. -/
def firstOf (cli env file : Option GoString) (dflt : GoString) : GoString :=
  match cli, env, file with
  | some v, _, _ => v
  | none, some v, _ => v
  | none, none, some v => v
  | none, none, none => dflt

/-- The content of `cfg.logLevel` is empty or a literal of `logLevels`. -/
def FlagSet.Valid (fs : FlagSet) : Prop := fs.logLevel = [] ∨ fs.logLevel ∈ logLevels

/-- Whether `arg` is a help flag: `--help` or `-h`. -/
def isHelpFlag (arg : GoString) : Bool := decide (arg = lit "--help" ∨ arg = lit "-h")

/-- Sources with the variable `LOG_LEVEL` set to `warn`, `CONFIG_FILE` set to
`cfg.yaml`, and a file `cfg.yaml` that sets `log_level` to `error`. -/
def layeredSources : Sources :=
  { Getenv := fun k =>
      if k = lit "LOG_LEVEL" then lit "warn"
      else if k = lit "CONFIG_FILE" then lit "cfg.yaml" else []
    OpenConfig := fun path =>
      if path = lit "cfg.yaml" then .pairs [(lit "log_level", lit "error"), (lit "other", lit "x")]
      else .notExist
    storesDefault := true }

/-- A path element that names a file or a directory: it is not empty, has no
separator in it, and is neither `.` nor `..`. -/
def IsName (n : GoString) : Prop := n ≠ [] ∧ Separator ∉ n ∧ n ≠ [Dot] ∧ n ≠ [Dot, Dot]

/-- The elements of a path, from left to right: the maximal runs of bytes
other than the separator. Every element takes at least one byte, so
`p.length` units of fuel give all of them. -/
def elems : Nat → GoString → List GoString
  | 0, _ => []
  | _, [] => []
  | fuel + 1, c :: p =>
    if c = Separator then elems fuel p
    else
      (c :: p.takeWhile fun x => decide (x ≠ Separator)) ::
        elems fuel (p.dropWhile fun x => decide (x ≠ Separator))

/-- What an element does to the names that lead from the root to the place
reached so far: `.` stays there, `..` goes up by one name (and stays at the
root), a name goes down. -/
def pushElem (names : List GoString) (e : GoString) : List GoString :=
  if e = [Dot] then names
  else if e = [Dot, Dot] then names.dropLast
  else names ++ [e]

/-- The names that lead from the root to the place a rooted path denotes. -/
def cleanNames (path : GoString) : List GoString :=
  (elems path.length path).foldl pushElem []

/-- The elements `names` written as a path: joined by separators. -/
def joinNames : List GoString → GoString
  | [] => []
  | [n] => n
  | n :: m :: ns => n ++ Separator :: joinNames (m :: ns)

/-- The rooted path that goes through `names`: `/` followed by the names
joined by separators. -/
def rootedPath (names : List GoString) : GoString := Separator :: joinNames names

/-- Two lists of names without the names they start with in common. -/
def stripCommon : List GoString → List GoString → List GoString × List GoString
  | x :: xs, y :: ys => if x = y then stripCommon xs ys else (x :: xs, y :: ys)
  | xs, ys => (xs, ys)

/-- The way from the directory reached by the names `dir` to the place reached
by the names `file`: `.` if they are the same place, else one `..` for every
name of `dir` after the common start, followed by the names of `file` after
it. -/
def relNames (dir file : List GoString) : GoString :=
  if dir = file then [Dot]
  else
    joinNames
      (List.replicate (stripCommon dir file).1.length [Dot, Dot] ++ (stripCommon dir file).2)

/-- Elements that can be joined and split again: none is empty or has a
separator in it. -/
def Plain (st : List GoString) : Prop := ∀ n ∈ st, n ≠ [] ∧ Separator ∉ n

/-! ## Sample hosts -/

/-- Sources with an empty environment and no config file. -/
def noSources : Sources :=
  { Getenv := fun _ => [], OpenConfig := fun _ => .notExist, storesDefault := true }

/-- A stand-in for the part of `filepath.Rel` that is not modelled. -/
def sampleRelUnrooted (basepath targpath : GoString) : Except GoError GoString :=
  .error (relError basepath targpath)

/-- A call site in `main.go`, compiled in `/a/b`. -/
def callAt (now line : Nat) : Call :=
  { now := now, src := { Function := lit "main.main", File := lit "/a/b/main.go", Line := line } }

/-- A host whose flag parser always ends with `out`. -/
def fixedHost (out : ParseOutcome) (Getwd : Except GoError GoString) : Host :=
  { ffParse := fun _ => out, help := lit "usage", caseRanges := sampleCaseRanges, Getwd := Getwd,
    relUnrooted := sampleRelUnrooted, call1 := callAt 1 87, call2 := callAt 2 88 }

/-! ## The library functions on sample inputs -/

theorem getLogLevel_samples :
    getLogLevel sampleCaseRanges (lit "DeBug") = LevelDebug ∧
    getLogLevel sampleCaseRanges (lit "trace") = LevelInfo ∧
    getLogLevel sampleCaseRanges (lit "") = LevelInfo ∧
    getLogLevel sampleCaseRanges [0xC3, 0x84] = LevelInfo ∧
    Map id [0xC3, 0x84, 0xFF, 0x41] = [0xC3, 0x84, 0xEF, 0xBF, 0xBD, 0x41] := by
  decide

theorem Clean_samples :
    Clean (lit "/a/b") = lit "/a/b" ∧
    Clean (lit "/a//b/./c/../d/") = lit "/a/b/d" ∧
    Clean (lit "a/../../b") = lit "../b" ∧
    Clean (lit "/../a") = lit "/a" ∧
    Clean (lit "") = lit "." ∧
    Clean (lit "abc/def/..") = lit "abc" := by
  decide

theorem Rel_samples :
    Rel sampleRelUnrooted (lit "/a/b") (lit "/a/b") = .ok (lit ".") ∧
    Rel sampleRelUnrooted (lit "/a/b/.") (lit "/a/b") = .ok (lit ".") ∧
    Rel sampleRelUnrooted (lit "/ab/cd") (lit "/ab/cde") = .ok (lit "../cde") ∧
    Rel sampleRelUnrooted (lit "/ab/cd") (lit "/ab/c") = .ok (lit "../c") ∧
    Rel sampleRelUnrooted (lit "/a/b") (lit "/a/b/c/d") = .ok (lit "c/d") ∧
    Rel sampleRelUnrooted (lit "/a/b") (lit "/a/b/../c") = .ok (lit "../c") ∧
    Rel sampleRelUnrooted (lit "/a/b/../c") (lit "/a/b") = .ok (lit "../b") ∧
    Rel sampleRelUnrooted (lit "/a/b/c") (lit "/a/c/d") = .ok (lit "../../c/d") ∧
    Rel sampleRelUnrooted (lit "/a/b") (lit "/c/d") = .ok (lit "../../c/d") ∧
    Rel sampleRelUnrooted (lit "/a/b/c/d") (lit "/a/b") = .ok (lit "../..") ∧
    Rel sampleRelUnrooted (lit "/a/b/c/d/") (lit "/a/b/") = .ok (lit "../..") ∧
    Rel sampleRelUnrooted (lit "/../../a/b") (lit "/../../a/b/c/d") = .ok (lit "c/d") ∧
    Rel sampleRelUnrooted (lit "/a/b/c") (lit "/") = .ok (lit "../../..") ∧
    Rel sampleRelUnrooted (lit "/") (lit "/a") = .ok (lit "a") ∧
    Rel sampleRelUnrooted (lit "/a") (lit "a") = .error (relError (lit "/a") (lit "a")) ∧
    Rel sampleRelUnrooted (lit "a") (lit "/a") = .error (relError (lit "a") (lit "/a")) ∧
    Rel sampleRelUnrooted (lit "a/b") (lit "a/b/.") = .ok (lit ".") := by
  decide

theorem ffParse_samples :
    ff.Parse noSources [] = ParseOutcome.mk none (lit "info") ∧
    ff.Parse noSources [lit "--log_level=Debug"] = ParseOutcome.mk none (lit "Debug") ∧
    ff.Parse noSources [lit "-c", lit "missing.yaml", lit "--log_level", lit "WARN"]
      = ParseOutcome.mk none (lit "WARN") ∧
    ff.Parse layeredSources [] = ParseOutcome.mk none (lit "warn") ∧
    ff.Parse { layeredSources with Getenv := fun _ => [] } [lit "--config_file", lit "cfg.yaml"]
      = ParseOutcome.mk none (lit "error") ∧
    (ff.Parse noSources [lit "--help"]).err.map IsErrHelp = some true ∧
    (ff.Parse noSources [lit "--HELP"]).err.map IsErrHelp = some true ∧
    ff.Parse noSources [lit "-", lit "--log_level", lit "debug"]
      = ParseOutcome.mk none (lit "debug") ∧
    (ff.Parse noSources [lit "--log_level", lit "verbose"]).err.map IsErrHelp = some false ∧
    (ff.Parse noSources [lit "--", lit "--help"]).err = none := by
  decide

/-! ## The loops run to their end -/

/-- A rune of a non-empty string is at least one byte wide. -/
theorem decode_width (s : GoString) (h : s ≠ []) : 1 ≤ (DecodeRuneInString s).2 := by
  unfold DecodeRuneInString
  split
  · exact absurd rfl h
  · split_ifs <;> (try split) <;> (try split_ifs) <;> simp

/-- The fuel of `rangeRunes` is enough from the length of the string on: more
fuel visits the same runes. -/
theorem rangeRunes_fuel (n : Nat) :
    ∀ (m : Nat) (s : GoString), s.length ≤ n → s.length ≤ m → rangeRunes n s = rangeRunes m s := by
  induction n with
  | zero =>
    intro m s hn _
    have : s = [] := List.length_eq_zero.mp (Nat.le_zero.mp hn)
    subst this
    cases m <;> rfl
  | succ n ih =>
    intro m s hn hm
    cases s with
    | nil => cases m <;> rfl
    | cons b rest =>
      cases m with
      | zero => simp at hm
      | succ m =>
        simp only [rangeRunes]
        congr 1
        apply ih
        · simp only [List.length_drop, List.length_cons] at *; omega
        · simp only [List.length_drop, List.length_cons] at *; omega

/-- The fuel of `cleanLoop` is enough from the length of the unread path on. -/
theorem cleanLoop_fuel (rooted : Bool) (n : Nat) :
    ∀ (m : Nat) (p out : GoString) (dotdot : Nat), p.length ≤ n → p.length ≤ m →
      cleanLoop rooted n p out dotdot = cleanLoop rooted m p out dotdot := by
  induction n with
  | zero =>
    intro m p out dotdot hn _
    have : p = [] := List.length_eq_zero.mp (Nat.le_zero.mp hn)
    subst this
    cases m <;> rfl
  | succ n ih =>
    intro m p out dotdot hn hm
    cases p with
    | nil => cases m <;> rfl
    | cons c p =>
      cases m with
      | zero => simp at hm
      | succ m =>
        have hn1 : p.length ≤ n := by simpa using hn
        have hm1 : p.length ≤ m := by simpa using hm
        have htl : p.tail.length ≤ p.length := by simp
        have hdw : (p.dropWhile fun x => decide (x ≠ Separator)).length ≤ p.length :=
          (List.dropWhile_sublist _).length_le
        simp only [cleanLoop]
        split_ifs <;> apply ih <;> omega

theorem elemEnd_ge (s : GoString) (i : Nat) : i ≤ elemEnd s i := by
  unfold elemEnd; omega

/-- The fuel of `relLoop` is enough from the number of unread bytes of `base`
on. -/
theorem relLoop_fuel (base targ : GoString) (n : Nat) :
    ∀ (m b0 bi t0 ti : Nat), base.length - bi ≤ n → base.length - bi ≤ m →
      relLoop base targ n (b0, bi, t0, ti) = relLoop base targ m (b0, bi, t0, ti) := by
  induction n with
  | zero =>
    intro m b0 bi t0 ti hn _
    cases m with
    | zero => rfl
    | succ m =>
      have : ¬ bi < base.length := by omega
      simp [relLoop, this]
  | succ n ih =>
    intro m b0 bi t0 ti hn hm
    cases m with
    | zero =>
      have : ¬ bi < base.length := by omega
      simp [relLoop, this]
    | succ m =>
      simp only [relLoop]
      have hge := elemEnd_ge base bi
      split_ifs with h1 h2 h3 h4 <;> first | rfl | (apply ih <;> omega)

/-! ## Lemmas on strings -/

theorem decode_nonascii (b0 : Nat) (rest : GoString) (h : 0x80 ≤ b0) :
    0x80 ≤ (DecodeRuneInString (b0 :: rest)).1 := by
  unfold DecodeRuneInString
  simp only [inRange, RuneError]
  split_ifs <;> (try split) <;> (try split_ifs) <;> simp_all <;> omega

theorem decode_ascii (b0 : Nat) (rest : GoString) (h : b0 < 0x80) :
    DecodeRuneInString (b0 :: rest) = (b0, 1) := by
  simp [DecodeRuneInString, h]

theorem rangeRunes_nonascii (fuel : Nat) :
    ∀ s : GoString, s.length ≤ fuel → (∃ b ∈ s, 0x80 ≤ b) →
      ∃ r ∈ rangeRunes fuel s, 0x80 ≤ r := by
  induction fuel with
  | zero =>
    intro s hlen hex
    obtain ⟨b, hb, _⟩ := hex
    have : s = [] := List.length_eq_zero.mp (Nat.le_zero.mp hlen)
    simp [this] at hb
  | succ n ih =>
    intro s hlen hex
    cases s with
    | nil => simp at hex
    | cons b rest =>
      by_cases hb : 0x80 ≤ b
      · exact ⟨_, by simp [rangeRunes], decode_nonascii b rest hb⟩
      · have hlt : b < 0x80 := by omega
        have hrest : ∃ c ∈ rest, 0x80 ≤ c := by
          obtain ⟨c, hc, hc80⟩ := hex
          rcases List.mem_cons.mp hc with rfl | hc
          · omega
          · exact ⟨c, hc, hc80⟩
        have hl : rest.length ≤ n := by simpa using hlen
        obtain ⟨r, hr, hr80⟩ := ih rest hl hrest
        refine ⟨r, ?_, hr80⟩
        simp [rangeRunes, decode_ascii b rest hlt, hr]

theorem encodeRune_head (r : Nat) :
    ∃ b ∈ encodeRune r, (r < 0x80 ∧ b = r) ∨ 0x80 ≤ b := by
  unfold encodeRune
  split_ifs with h1 h2 h3 h4
  · exact ⟨r, by simp, Or.inl ⟨h1, rfl⟩⟩
  · exact ⟨_, List.mem_cons_self _ _, Or.inr (by omega)⟩
  · exact ⟨_, List.mem_cons_self _ _, Or.inr (by omega)⟩
  · exact ⟨_, List.mem_cons_self _ _, Or.inr (by omega)⟩
  · exact ⟨_, List.mem_cons_self _ _, Or.inr (by omega)⟩

/-- Lowering a string with a non-ASCII byte leaves a byte that is not plain. -/
theorem ToLower_nonascii (caseRanges : Nat → Nat) (hT : CaseTable caseRanges)
    (s : GoString) (hs : ∃ b ∈ s, 0x80 ≤ b) :
    ∃ b ∈ ToLower caseRanges s, ¬ plainByte b := by
  have hall : s.all (fun c => decide (c < 0x80)) = false := by
    obtain ⟨b, hb, hb80⟩ := hs
    apply Bool.eq_false_iff.mpr
    intro hall
    have := List.all_eq_true.mp hall b hb
    simp at this
    omega
  obtain ⟨r, hr, hr80⟩ := rangeRunes_nonascii s.length s (Nat.le_refl _) hs
  obtain ⟨b, hb, hb2⟩ := encodeRune_head (unicodeToLower caseRanges r)
  refine ⟨b, ?_, ?_⟩
  · have hm : b ∈ Map (unicodeToLower caseRanges) s :=
      List.mem_flatMap.mpr ⟨r, hr, hb⟩
    simpa [ToLower, hall] using hm
  · have hlow : unicodeToLower caseRanges r = caseRanges r := by
      simp [unicodeToLower]; omega
    rw [hlow] at hb2
    have := hT r hr80
    unfold plainByte
    omega

/-- On a keyword made of plain bytes, `strings.ToLower` and the ASCII lowering
agree on whether a string matches it. -/
theorem ToLower_eq_iff (caseRanges : Nat → Nat) (hT : CaseTable caseRanges)
    (s w : GoString) (hw : ∀ b ∈ w, plainByte b) :
    ToLower caseRanges s = w ↔ s.map lowerASCII = w := by
  by_cases hs : ∃ b ∈ s, 0x80 ≤ b
  · constructor
    · intro h
      obtain ⟨b, hb, hnb⟩ := ToLower_nonascii caseRanges hT s hs
      rw [h] at hb
      exact absurd (hw b hb) hnb
    · intro h
      obtain ⟨b, hb, hb80⟩ := hs
      have hm : lowerASCII b ∈ w := by
        rw [← h]; exact List.mem_map_of_mem _ hb
      have hp := hw _ hm
      unfold plainByte lowerASCII at hp
      split_ifs at hp <;> omega
  · have hall : s.all (fun c => decide (c < 0x80)) = true := by
      apply List.all_eq_true.mpr
      intro b hb
      have : ¬ 0x80 ≤ b := fun h => hs ⟨b, hb, h⟩
      simp; omega
    simp [ToLower, hall]

theorem plain_debug : ∀ b ∈ lit "debug", plainByte b := by
  unfold plainByte; decide

theorem plain_warn : ∀ b ∈ lit "warn", plainByte b := by
  unfold plainByte; decide

theorem plain_error : ∀ b ∈ lit "error", plainByte b := by
  unfold plainByte; decide

/-- The switch of `getLogLevel`, read on the ASCII lowering of its argument. -/
theorem getLogLevel_eq (caseRanges : Nat → Nat) (hT : CaseTable caseRanges) (s : GoString) :
    getLogLevel caseRanges s =
      if eqIgnoreCase s (lit "debug") then LevelDebug
      else if eqIgnoreCase s (lit "warn") then LevelWarn
      else if eqIgnoreCase s (lit "error") then LevelError
      else LevelInfo := by
  have e1 : (lit "debug").map lowerASCII = lit "debug" := by decide
  have e2 : (lit "warn").map lowerASCII = lit "warn" := by decide
  have e3 : (lit "error").map lowerASCII = lit "error" := by decide
  simp only [getLogLevel, eqIgnoreCase, e1, e2, e3, decide_eq_true_eq,
    ToLower_eq_iff caseRanges hT s _ plain_debug,
    ToLower_eq_iff caseRanges hT s _ plain_warn,
    ToLower_eq_iff caseRanges hT s _ plain_error]

theorem sampleCaseRanges_ok : CaseTable sampleCaseRanges := by
  intro r hr
  unfold sampleCaseRanges
  split_ifs <;> omega

/-! ## The level mapping and the installed threshold -/

/-- C1 (as amended): for every level string `s`, when `os.Getwd` succeeds,
`setupLogging(s)` returns and has installed a logger whose threshold is
`getLogLevel(s)`; when `os.Getwd` fails it panics with that error and leaves
the state as it was. `getLogLevel(s)` is the debug, warn or error rank when
`s` equals that keyword up to case, and the info rank for every other string;
over the 15 literals of `logLevels` the forms of debug, warn and error get
their own rank and those of info and trace the info rank. -/
theorem setupLogging_installs_getLogLevel (caseRanges : Nat → Nat)
    (hT : CaseTable caseRanges) (s dir : GoString) (w : World) :
    (∃ w1, setupLogging caseRanges (.ok dir) s w = .ret w1 ∧
      w1.defaultLogger.threshold = getLogLevel caseRanges s) ∧
    (∀ err, setupLogging caseRanges (.error err) s w = .panic (.err err) w) ∧
    getLogLevel caseRanges s =
      (if eqIgnoreCase s (lit "debug") then LevelDebug
       else if eqIgnoreCase s (lit "warn") then LevelWarn
       else if eqIgnoreCase s (lit "error") then LevelError
       else LevelInfo) ∧
    logLevels.map (getLogLevel caseRanges) =
      [LevelInfo, LevelInfo, LevelDebug, LevelWarn, LevelError,
       LevelInfo, LevelInfo, LevelDebug, LevelWarn, LevelError,
       LevelInfo, LevelInfo, LevelDebug, LevelWarn, LevelError] := by
  refine ⟨⟨_, rfl, rfl⟩, fun _ => rfl, getLogLevel_eq caseRanges hT s, ?_⟩
  simp only [logLevels, List.map, getLogLevel_eq caseRanges hT]
  decide

theorem setupLogging_installs_getLogLevel_witness :
    (∃ w1, setupLogging sampleCaseRanges (.ok (lit "/a/b")) (lit "WARN") World.start = .ret w1 ∧
      w1.defaultLogger.threshold = getLogLevel sampleCaseRanges (lit "WARN")) ∧
    getLogLevel sampleCaseRanges (lit "WARN") = LevelWarn :=
  have h := setupLogging_installs_getLogLevel sampleCaseRanges sampleCaseRanges_ok
    (lit "WARN") (lit "/a/b") World.start
  ⟨h.1, by rw [h.2.2.1]; decide⟩

/-- C1 fails as stated: when `os.Getwd` fails, `setupLogging("debug")` panics
and the default logger is still the initial one, whose threshold is not the
debug rank. -/
theorem setupLogging_getwd_fails :
    setupLogging sampleCaseRanges (.error (errorsNew (lit "getwd: no such file or directory")))
        (lit "debug") World.start
      = .panic (.err (errorsNew (lit "getwd: no such file or directory"))) World.start ∧
    World.start.defaultLogger.threshold ≠ getLogLevel sampleCaseRanges (lit "debug") := by
  decide

/-- C9 (as amended): for every level string `s`, two invocations of
`setupLogging(s)` in a row at which `os.Getwd` succeeds both return, the
threshold installed by the second equals the one installed by the first, and
both are `getLogLevel(s)`; the threshold installed by `setupLogging(s)` is the
same from every previous state (whatever logger was installed before) and for
every working directory. An invocation at which `os.Getwd` fails panics with
that error and leaves the state as it was. -/
theorem setupLogging_twice (caseRanges : Nat → Nat) (s dir1 dir2 : GoString) (w : World) :
    (∃ w1 w2, setupLogging caseRanges (.ok dir1) s w = .ret w1 ∧
      setupLogging caseRanges (.ok dir2) s w1 = .ret w2 ∧
      w2.defaultLogger.threshold = w1.defaultLogger.threshold ∧
      w1.defaultLogger.threshold = getLogLevel caseRanges s ∧
      w2.Stdout = w.Stdout ∧ w2.Stderr = w.Stderr) ∧
    (∀ (v : World) (dir : GoString), ∃ v1, setupLogging caseRanges (.ok dir) s v = .ret v1 ∧
      v1.defaultLogger.threshold = getLogLevel caseRanges s) ∧
    (∀ (v : World) (err : GoError),
      setupLogging caseRanges (.error err) s v = .panic (.err err) v) :=
  ⟨⟨_, _, rfl, rfl, rfl, rfl, rfl, rfl⟩, fun _ _ => ⟨_, rfl, rfl⟩, fun _ _ => rfl⟩

/-- C9 fails as stated: after a first `setupLogging("warn")` that succeeds, a
second one at which `os.Getwd` fails does produce an error: it panics. -/
theorem setupLogging_twice_getwd_fails :
    setupLogging sampleCaseRanges (.ok (lit "/a/b")) (lit "warn") World.start
      = .ret { World.start with
          defaultLogger := .text { AddSource := true, Level := LevelWarn, baseDir := lit "/a/b" } } ∧
    setupLogging sampleCaseRanges (.error (errorsNew (lit "getwd: no such file or directory")))
        (lit "warn")
        { World.start with
          defaultLogger := .text { AddSource := true, Level := LevelWarn, baseDir := lit "/a/b" } }
      = .panic (.err (errorsNew (lit "getwd: no such file or directory")))
        { World.start with
          defaultLogger := .text { AddSource := true, Level := LevelWarn, baseDir := lit "/a/b" } } := by
  decide

/-! ## Errors of `readProgramVariables` and what `main` does with them -/

/-- C2: for every argument list with fewer than one element,
`readProgramVariables` returns the zero configuration and the error "not
enough arguments provided to the program", the same for every flag parser and
without writing anything, and `main` panics on it with the state unchanged:
`setupLogging` is not reached and the default logger is the one from before. -/
theorem readProgramVariables_no_args (ffParse : List GoString → ParseOutcome) (help : GoString)
    (args : List GoString) (w : World) (hlen : args.length < 1) :
    readProgramVariables ffParse help args w
      = ((config.mk [], some (errorsNew (lit "not enough arguments provided to the program"))), w) ∧
    (∀ h : Host, main h args w
      = .panic (.str (lit "Error reading program variables: "
          ++ lit "not enough arguments provided to the program")) w) ∧
    (∀ h : Host, (main h args w).world.defaultLogger = w.defaultLogger) := by
  have hrp : ∀ (P : List GoString → ParseOutcome) (t : GoString), readProgramVariables P t args w
      = ((config.mk [], some (errorsNew (lit "not enough arguments provided to the program"))), w) := by
    intro P t
    simp [readProgramVariables, hlen]
  have hmain : ∀ h : Host, main h args w
      = .panic (.str (lit "Error reading program variables: "
          ++ lit "not enough arguments provided to the program")) w := by
    intro h
    simp only [main, hrp]
    rfl
  exact ⟨hrp ffParse help, hmain, fun h => by rw [hmain h]; rfl⟩

theorem readProgramVariables_no_args_witness :
    readProgramVariables (fun _ => ParseOutcome.mk none (lit "debug")) (lit "usage") [] World.start
      = ((config.mk [], some (errorsNew (lit "not enough arguments provided to the program"))),
          World.start) :=
  (readProgramVariables_no_args (fun _ => ParseOutcome.mk none (lit "debug")) (lit "usage") []
    World.start (by decide)).1

/-- C4: for every error `err` the flag parser returns: if it is the help
condition, `readProgramVariables` returns it as it is with the zero
configuration (after writing the help text to the error stream) and `main`
exits with status 0; otherwise `readProgramVariables` returns it wrapped with
the prefix "ff.Parse: " and the zero configuration, and `main` panics with a
message that starts "Error reading program variables: ". The exit status of
`main` is 0 exactly when the error is the help condition, and in both cases
the default logger and the standard output are as before: `setupLogging` is
not called. -/
theorem parse_error_outcomes (h : Host) (args : List GoString) (w : World) (err : GoError)
    (hlen : 1 ≤ args.length) (herr : (h.ffParse (args.drop 1)).err = some err) :
    (IsErrHelp err = true →
      readProgramVariables h.ffParse h.help args w
        = ((config.mk [], some err), { w with Stderr := w.Stderr ++ [.text (h.help ++ [0x0A])] }) ∧
      main h args w = .exit 0 { w with Stderr := w.Stderr ++ [.text (h.help ++ [0x0A])] }) ∧
    (IsErrHelp err = false →
      readProgramVariables h.ffParse h.help args w
        = ((config.mk [], some (.wrapError (lit "ff.Parse: " ++ err.Error) err)), w) ∧
      main h args w
        = .panic (.str (lit "Error reading program variables: " ++ (lit "ff.Parse: " ++ err.Error))) w) ∧
    ((main h args w).status = 0 ↔ IsErrHelp err = true) ∧
    (main h args w).world.defaultLogger = w.defaultLogger ∧
    (main h args w).world.Stdout = w.Stdout := by
  have hn : ¬ args.length < 1 := by omega
  have herr2 : (h.ffParse args.tail).err = some err := by simpa using herr
  cases hh : IsErrHelp err with
  | true =>
    have hr : readProgramVariables h.ffParse h.help args w
        = ((config.mk [], some err),
            { w with Stderr := w.Stderr ++ [.text (h.help ++ [0x0A])] }) := by
      simp [readProgramVariables, hn, herr2, hh]
    have hm : main h args w
        = .exit 0 { w with Stderr := w.Stderr ++ [.text (h.help ++ [0x0A])] } := by
      simp [main, hr, hh]
    refine ⟨fun _ => ⟨hr, hm⟩, fun hc => by simp at hc, ?_, ?_, ?_⟩ <;> simp [hm, Exec.status, Exec.world]
  | false =>
    have hr : readProgramVariables h.ffParse h.help args w
        = ((config.mk [], some (.wrapError (lit "ff.Parse: " ++ err.Error) err)), w) := by
      simp [readProgramVariables, hn, herr2, hh, Errorf]
    have hm : main h args w
        = .panic (.str (lit "Error reading program variables: "
            ++ (lit "ff.Parse: " ++ err.Error))) w := by
      simp [main, hr, IsErrHelp, hh, GoError.Error]
    refine ⟨fun hc => by simp at hc, fun _ => ⟨hr, hm⟩, ?_, ?_, ?_⟩ <;> simp [hm, Exec.status, Exec.world]

theorem parse_error_outcomes_witness :
    (main (fixedHost (ParseOutcome.mk (some (.wrapError (lit "parse args: help") .ErrHelp)) [])
        (.ok (lit "/a/b"))) [lit "updater", lit "--help"] World.start).status = 0 :=
  (parse_error_outcomes
    (fixedHost (ParseOutcome.mk (some (.wrapError (lit "parse args: help") .ErrHelp)) [])
      (.ok (lit "/a/b")))
    [lit "updater", lit "--help"] World.start (.wrapError (lit "parse args: help") .ErrHelp)
    (by decide) rfl).2.2.1.mpr rfl

/-! ## The rewrite of attributes -/

/-- The rewrite leaves an attribute as it is when its key is not the source
key or its value is not a `*slog.Source`. -/
theorem ReplaceAttr_other (relUnrooted : GoString → GoString → Except GoError GoString)
    (baseDir : GoString) (a : Attr) (h : a.Key ≠ SourceKey ∨ ∀ src, a.Value ≠ .Source src) :
    ReplaceAttr relUnrooted baseDir a = .ok a := by
  unfold ReplaceAttr
  rcases h with h | h
  · simp [h]
  · split_ifs
    · split
      · next heq => exact absurd heq (h none)
      · next src heq => exact absurd heq (h (some src))
      · rfl
    · rfl

/-- On a source that is not nil the rewrite keeps the key, the function and
the line, and an attribute that was not empty is not empty afterwards. -/
theorem ReplaceAttr_source (relUnrooted : GoString → GoString → Except GoError GoString)
    (baseDir key : GoString) (src : Source) :
    ∃ file, ReplaceAttr relUnrooted baseDir (Attr.mk key (.Source (some src)))
        = .ok (Attr.mk key (.Source (some { src with File := file }))) ∧
      (key = SourceKey → file = (relativeSource relUnrooted baseDir src).File) ∧
      (key ≠ SourceKey → file = src.File) := by
  by_cases hk : key = SourceKey
  · refine ⟨(relativeSource relUnrooted baseDir src).File, ?_, fun _ => rfl, fun h => absurd hk h⟩
    simp only [ReplaceAttr, hk, if_true]
    unfold relativeSource
    cases Rel relUnrooted baseDir src.File <;> rfl
  · exact ⟨src.File, by simp [ReplaceAttr, hk], fun h => absurd h hk, fun _ => rfl⟩

theorem threshold_above_info (caseRanges : Nat → Nat) (s : GoString) :
    LevelInfo < getLogLevel caseRanges s ↔
      getLogLevel caseRanges s = LevelWarn ∨ getLogLevel caseRanges s = LevelError := by
  simp only [getLogLevel]
  split_ifs <;> simp [LevelInfo, LevelDebug, LevelWarn, LevelError]

theorem replaceAll_other (relUnrooted : GoString → GoString → Except GoError GoString)
    (baseDir : GoString) (attrs : List Attr) (hk : ∀ a ∈ attrs, a.Key ≠ SourceKey) :
    replaceAll (ReplaceAttr relUnrooted baseDir) attrs = .ok attrs := by
  induction attrs with
  | nil => rfl
  | cons a rest ih =>
    have h1 := ReplaceAttr_other relUnrooted baseDir a (Or.inl (hk a (List.mem_cons_self _ _)))
    have h2 := ih (fun b hb => hk b (List.mem_cons_of_mem _ hb))
    simp [replaceAll, h1, h2]

/-- The line of a record that the installed logger writes for a call whose
own attributes have keys that are neither empty nor the source key. -/
theorem recordItems_builtin (relUnrooted : GoString → GoString → Except GoError GoString)
    (baseDir : GoString) (c : Call) (msg : GoString) (attrs : List Attr)
    (hk : ∀ a ∈ attrs, a.Key ≠ SourceKey ∧ a.Key ≠ []) :
    recordItems true (ReplaceAttr relUnrooted baseDir) c LevelInfo msg attrs
      = .ok ([Attr.mk TimeKey (.Time c.now), Attr.mk LevelKey (.Level LevelInfo),
          Attr.mk SourceKey (.Source (some (relativeSource relUnrooted baseDir c.src))),
          Attr.mk MessageKey (.String msg)] ++ attrs) := by
  have h1 : ReplaceAttr relUnrooted baseDir (Attr.mk TimeKey (.Time c.now))
      = .ok (Attr.mk TimeKey (.Time c.now)) :=
    ReplaceAttr_other _ _ _ (Or.inl (show TimeKey ≠ SourceKey by decide))
  have h2 : ReplaceAttr relUnrooted baseDir (Attr.mk LevelKey (.Level LevelInfo))
      = .ok (Attr.mk LevelKey (.Level LevelInfo)) :=
    ReplaceAttr_other _ _ _ (Or.inl (show LevelKey ≠ SourceKey by decide))
  have h3 : ReplaceAttr relUnrooted baseDir (Attr.mk MessageKey (.String msg))
      = .ok (Attr.mk MessageKey (.String msg)) :=
    ReplaceAttr_other _ _ _ (Or.inl (show MessageKey ≠ SourceKey by decide))
  have h4 : ReplaceAttr relUnrooted baseDir (Attr.mk SourceKey (.Source (some c.src)))
      = .ok (Attr.mk SourceKey (.Source (some (relativeSource relUnrooted baseDir c.src)))) := by
    simp [ReplaceAttr]
  have h5 := replaceAll_other relUnrooted baseDir attrs (fun a ha => (hk a ha).1)
  have h6 : attrs.filter (fun a => !a.isEmpty) = attrs := by
    apply List.filter_eq_self.mpr
    intro a ha
    simp [Attr.isEmpty, (hk a ha).2]
  have e :
      replaceAll (ReplaceAttr relUnrooted baseDir)
        (Attr.mk TimeKey (.Time c.now) :: Attr.mk LevelKey (.Level LevelInfo) ::
          Attr.mk SourceKey (.Source (some c.src)) :: Attr.mk MessageKey (.String msg) :: attrs)
      = .ok (Attr.mk TimeKey (.Time c.now) :: Attr.mk LevelKey (.Level LevelInfo) ::
          Attr.mk SourceKey (.Source (some (relativeSource relUnrooted baseDir c.src))) ::
          Attr.mk MessageKey (.String msg) :: attrs) := by
    simp only [replaceAll, h1, h2, h3, h4, h5]
  have hf : ∀ (k : GoString) (v : Value), k ≠ [] → (Attr.mk k v).isEmpty = false := by
    intro k v hk
    simp [Attr.isEmpty, hk]
  simp only [recordItems, if_true, List.cons_append, List.nil_append, e, List.filter_cons,
    hf TimeKey _ (by decide), hf LevelKey _ (by decide), hf SourceKey _ (by decide),
    hf MessageKey _ (by decide), h6]
  simp

/-- C5 (as amended): for every configuration `readProgramVariables` returns
without error: when `os.Getwd` succeeds, `main` installs the logger and then
hands two records of level Info to it, "Application started" and then "Log
level set to" with the level string as the attribute "level"; the installed
logger writes both, in that order and nothing else, when its threshold is at
most the info rank, and writes neither when its threshold is the warn or the
error rank; in both cases `main` returns. When `os.Getwd` fails, `main`
panics with that error in `setupLogging` and no record is written. -/
theorem main_startup_records (h : Host) (args : List GoString) (w w1 : World) (cfg : config)
    (hcfg : readProgramVariables h.ffParse h.help args w = ((cfg, none), w1)) :
    (∀ dir, h.Getwd = .ok dir →
      ∃ w3, main h args w = .ret w3 ∧
        w3.defaultLogger
          = .text (HandlerOptions.mk true (getLogLevel h.caseRanges cfg.logLevel) (Clean dir)) ∧
        w3.Stderr = w1.Stderr ∧
        w3.Stdout = w1.Stdout ++
          (if LevelInfo < getLogLevel h.caseRanges cfg.logLevel then []
           else
            [ .record [Attr.mk TimeKey (.Time h.call1.now), Attr.mk LevelKey (.Level LevelInfo),
                Attr.mk SourceKey
                  (.Source (some (relativeSource h.relUnrooted (Clean dir) h.call1.src))),
                Attr.mk MessageKey (.String (lit "Application started"))],
              .record [Attr.mk TimeKey (.Time h.call2.now), Attr.mk LevelKey (.Level LevelInfo),
                Attr.mk SourceKey
                  (.Source (some (relativeSource h.relUnrooted (Clean dir) h.call2.src))),
                Attr.mk MessageKey (.String (lit "Log level set to")),
                Attr.mk (lit "level") (.String cfg.logLevel)] ])) ∧
    (LevelInfo < getLogLevel h.caseRanges cfg.logLevel ↔
      getLogLevel h.caseRanges cfg.logLevel = LevelWarn ∨
        getLogLevel h.caseRanges cfg.logLevel = LevelError) ∧
    (∀ err, h.Getwd = .error err → main h args w = .panic (.err err) w1) := by
  refine ⟨?_, threshold_above_info h.caseRanges cfg.logLevel, ?_⟩
  · intro dir hwd
    have hk : ∀ a ∈ [slogString (lit "level") cfg.logLevel], a.Key ≠ SourceKey ∧ a.Key ≠ [] := by
      intro a ha
      rw [List.mem_singleton.mp ha]
      exact ⟨show lit "level" ≠ SourceKey by decide, show lit "level" ≠ [] by decide⟩
    have r1 := recordItems_builtin h.relUnrooted (Clean dir) h.call1 (lit "Application started") []
      (fun a ha => by simp at ha)
    have r2 := recordItems_builtin h.relUnrooted (Clean dir) h.call2 (lit "Log level set to")
      [slogString (lit "level") cfg.logLevel] hk
    by_cases hlt : LevelInfo < getLogLevel h.caseRanges cfg.logLevel
    · refine ⟨World.mk
        (.text (HandlerOptions.mk true (getLogLevel h.caseRanges cfg.logLevel) (Clean dir)))
        w1.Stdout w1.Stderr, ?_, rfl, rfl, by simp [hlt]⟩
      simp [main, hcfg, hwd, setupLogging, Info, Logger.threshold, hlt]
    · have hm : main h args w = .ret (World.mk
          (.text (HandlerOptions.mk true (getLogLevel h.caseRanges cfg.logLevel) (Clean dir)))
          (w1.Stdout ++
            [ .record [Attr.mk TimeKey (.Time h.call1.now), Attr.mk LevelKey (.Level LevelInfo),
                Attr.mk SourceKey
                  (.Source (some (relativeSource h.relUnrooted (Clean dir) h.call1.src))),
                Attr.mk MessageKey (.String (lit "Application started"))],
              .record [Attr.mk TimeKey (.Time h.call2.now), Attr.mk LevelKey (.Level LevelInfo),
                Attr.mk SourceKey
                  (.Source (some (relativeSource h.relUnrooted (Clean dir) h.call2.src))),
                Attr.mk MessageKey (.String (lit "Log level set to")),
                Attr.mk (lit "level") (.String cfg.logLevel)] ])
          w1.Stderr) := by
        simp only [main, hcfg, hwd, setupLogging, Info, Logger.threshold, hlt, if_false, r1, r2]
        simp [slogString]
      exact ⟨_, hm, rfl, rfl, by simp [hlt]⟩
  · intro err hwd
    simp [main, hcfg, hwd, setupLogging]

theorem main_startup_records_witness :
    ∃ w3, main (fixedHost (ParseOutcome.mk none (lit "debug")) (.ok (lit "/a/b")))
        [lit "updater"] World.start = .ret w3 ∧ w3.Stdout.length = 2 := by
  obtain ⟨w3, hm, _, _, hout⟩ := (main_startup_records
    (fixedHost (ParseOutcome.mk none (lit "debug")) (.ok (lit "/a/b")))
    [lit "updater"] World.start World.start (config.mk (lit "debug")) rfl).1 (lit "/a/b") rfl
  refine ⟨w3, hm, ?_⟩
  rw [hout]
  have : ¬ LevelInfo < getLogLevel sampleCaseRanges (lit "debug") := by decide
  simp [fixedHost, this, World.start]

/-- C5 fails as stated: with the allowed level "error" the two start-up
records are below the threshold of the installed logger, and `main` returns
with nothing written to the standard output. -/
theorem main_startup_records_filtered :
    main (fixedHost (ParseOutcome.mk none (lit "error")) (.ok (lit "/a/b")))
        [lit "updater", lit "--log_level", lit "error"] World.start
      = .ret (World.mk (.text (HandlerOptions.mk true LevelError (lit "/a/b"))) [] []) := by
  decide


/-! ## Cleaning a rooted path -/

theorem pathNames_samples :
    cleanNames (lit "/a/./b//x/..") = [lit "a", lit "b"] ∧
    cleanNames (lit "/../a/b/") = [lit "a", lit "b"] ∧
    cleanNames (lit "/") = [] ∧
    rootedPath [lit "a", lit "b"] = lit "/a/b" ∧
    rootedPath [] = lit "/" ∧
    relNames [lit "a", lit "b"] [lit "a", lit "b", lit "c", lit "d.go"] = lit "c/d.go" ∧
    relNames [lit "a", lit "b"] [lit "a", lit "c", lit "d.go"] = lit "../c/d.go" ∧
    relNames [lit "a", lit "b"] [lit "a"] = lit ".." ∧
    relNames [lit "a", lit "b"] [lit "a", lit "b"] = lit "." := by
  decide

theorem takeWhile_eq_nil_iff_head (p : GoString) :
    (p.takeWhile fun x => decide (x ≠ Separator)) = [] ↔ (p = [] ∨ p.head? = some Separator) := by
  cases p with
  | nil => simp
  | cons a t =>
    by_cases h : a = Separator <;> simp [List.takeWhile, h]

theorem dropWhile_of_head (p : GoString) (h : p = [] ∨ p.head? = some Separator) :
    (p.dropWhile fun x => decide (x ≠ Separator)) = p := by
  cases p with
  | nil => rfl
  | cons a t =>
    have : a = Separator := by simpa using h
    simp [List.dropWhile, this]

/-- The test of `filepath.Clean` for a `.` element. -/
theorem elem_eq_dot (c : Nat) (p : GoString) :
    (c :: p.takeWhile fun x => decide (x ≠ Separator)) = [Dot]
      ↔ (c = Dot ∧ (p = [] ∨ p.head? = some Separator)) := by
  rw [List.cons.injEq, takeWhile_eq_nil_iff_head]

/-- The test of `filepath.Clean` for a `..` element. -/
theorem elem_eq_dotdot (c : Nat) (p : GoString) :
    (c :: p.takeWhile fun x => decide (x ≠ Separator)) = [Dot, Dot]
      ↔ (c = Dot ∧ p.head? = some Dot ∧ (p.tail = [] ∨ p.tail.head? = some Separator)) := by
  cases p with
  | nil => simp
  | cons a t =>
    by_cases ha : a = Separator
    · subst ha
      simp [List.takeWhile]
      intro _ h
      exact absurd h (by decide)
    · simp only [List.takeWhile, ha, ne_eq, not_false_eq_true, decide_True, List.cons.injEq,
        List.head?_cons, Option.some.injEq, List.tail_cons]
      rw [takeWhile_eq_nil_iff_head]

theorem joinNames_cons (n : GoString) (ns : List GoString) (h : ns ≠ []) :
    joinNames (n :: ns) = n ++ Separator :: joinNames ns := by
  cases ns with
  | nil => exact absurd rfl h
  | cons m ms => rfl

theorem joinNames_snoc (st : List GoString) (n : GoString) (h : st ≠ []) :
    joinNames (st ++ [n]) = joinNames st ++ Separator :: n := by
  induction st with
  | nil => exact absurd rfl h
  | cons a t ih =>
    cases t with
    | nil => simp [joinNames]
    | cons b u =>
      have := ih (by simp)
      simp only [List.cons_append] at this ⊢
      simp only [joinNames, this, List.append_assoc, List.cons_append]

theorem joinNames_eq_nil (st : List GoString) (h : ∀ n ∈ st, n ≠ []) :
    joinNames st = [] ↔ st = [] := by
  cases st with
  | nil => simp [joinNames]
  | cons a t =>
    have ha := h a (List.mem_cons_self _ _)
    cases t with
    | nil => simp [joinNames, ha]
    | cons b u => simp [joinNames, ha]

/-- Stepping back over the last name of the output buffer ends at the
separator before it. -/
theorem backtrack_name (pre n : GoString) (hpre : 1 ≤ pre.length) (hn : Separator ∉ n) :
    ∀ k, k ≤ n.length → backtrack (pre ++ Separator :: n) 1 (pre.length + k) = pre.length := by
  intro k
  induction k with
  | zero =>
    intro _
    obtain ⟨w, hw⟩ : ∃ w, pre.length = w + 1 := ⟨pre.length - 1, by omega⟩
    simp only [Nat.add_zero, hw, backtrack]
    have : (pre ++ Separator :: n).getD (w + 1) 0 = Separator := by
      rw [← hw, List.getD_eq_getElem?_getD, List.getElem?_append_right (le_refl _)]
      simp
    rw [if_neg]
    intro h
    exact h.2 this
  | succ k ih =>
    intro hk
    have hget : (pre ++ Separator :: n).getD (pre.length + k + 1) 0 ≠ Separator := by
      rw [List.getD_eq_getElem?_getD, List.getElem?_append_right (by omega)]
      have : pre.length + k + 1 - pre.length = k + 1 := by omega
      rw [this, List.getElem?_cons_succ, List.getElem?_eq_getElem (by omega)]
      simp only [Option.getD_some]
      intro h
      exact hn (h ▸ List.getElem_mem _)
    show backtrack (pre ++ Separator :: n) 1 (pre.length + k + 1) = pre.length
    simp only [backtrack]
    rw [if_pos ⟨by omega, hget⟩]
    exact ih (by omega)

/-- The same from the first name: it ends at the root. -/
theorem backtrack_first (n : GoString) (hn : Separator ∉ n) :
    ∀ k, k + 1 ≤ n.length → backtrack (Separator :: n) 1 (k + 1) = 1 := by
  intro k
  induction k with
  | zero => intro _; simp [backtrack]
  | succ k ih =>
    intro hk
    have hget : (Separator :: n).getD (k + 1 + 1) 0 ≠ Separator := by
      rw [List.getD_eq_getElem?_getD, List.getElem?_cons_succ, List.getElem?_eq_getElem (by omega)]
      simp only [Option.getD_some]
      intro h
      exact hn (h ▸ List.getElem_mem _)
    simp only [backtrack]
    rw [if_pos ⟨by omega, hget⟩]
    exact ih (by omega)

theorem rooted_length (st : List GoString) (h : Plain st) :
    (rootedPath st).length ≠ 1 ↔ st ≠ [] := by
  simp only [rootedPath, List.length_cons]
  constructor
  · intro h1 h2
    subst h2
    simp [joinNames] at h1
  · intro h1 h2
    exact h1 ((joinNames_eq_nil st (fun n hn => (h n hn).1)).mp
      (List.length_eq_zero.mp (by omega)))

/-- The `..` step of `filepath.Clean` on a buffer that holds names. -/
theorem backtrack_rooted (st : List GoString) (n : GoString) (hst : Plain (st ++ [n])) :
    (rootedPath (st ++ [n])).take
      (backtrack (rootedPath (st ++ [n])) 1 ((rootedPath (st ++ [n])).length - 1)) = rootedPath st := by
  have hn := hst n (by simp)
  have hpl : Plain st := fun m hm => hst m (by simp [hm])
  by_cases h : st = []
  · subst h
    simp only [List.nil_append, rootedPath, joinNames, List.length_cons, Nat.add_sub_cancel]
    obtain ⟨k, hk⟩ : ∃ k, n.length = k + 1 :=
      ⟨n.length - 1, by have := List.length_pos.mpr hn.1; omega⟩
    rw [hk, backtrack_first n hn.2 k (by omega)]
    simp
  · have e : rootedPath (st ++ [n]) = rootedPath st ++ Separator :: n := by
      simp [rootedPath, joinNames_snoc st n h]
    rw [e]
    have hlen : (rootedPath st ++ Separator :: n).length - 1 = (rootedPath st).length + n.length := by
      simp
    rw [hlen, backtrack_name (rootedPath st) n (by simp [rootedPath]) hn.2 n.length (le_refl _)]
    simp


theorem elem_plain (c : Nat) (p : GoString) (hc : c ≠ Separator) :
    (c :: p.takeWhile fun x => decide (x ≠ Separator)) ≠ [] ∧
      Separator ∉ (c :: p.takeWhile fun x => decide (x ≠ Separator)) := by
  refine ⟨by simp, ?_⟩
  intro h
  rcases List.mem_cons.mp h with h | h
  · exact hc h.symm
  · have := List.mem_takeWhile_imp h
    simp at this

theorem Plain_snoc (st : List GoString) (e : GoString) (hst : Plain st)
    (he : e ≠ [] ∧ Separator ∉ e) : Plain (st ++ [e]) := by
  intro n hn
  rcases List.mem_append.mp hn with h | h
  · exact hst n h
  · rw [List.mem_singleton.mp h]; exact he

theorem Plain_dropLast (st : List GoString) (hst : Plain st) : Plain st.dropLast :=
  fun n hn => hst n (List.dropLast_subset _ hn)

theorem rootedPath_snoc (st : List GoString) (e : GoString) (hst : Plain st) :
    (if (true = true ∧ (rootedPath st).length ≠ 1) ∨ (¬ true = true ∧ (rootedPath st).length ≠ 0)
      then rootedPath st ++ [Separator] else rootedPath st) ++ e = rootedPath (st ++ [e]) := by
  by_cases h : st = []
  · subst h
    simp [rootedPath, joinNames]
  · have h1 := (rooted_length st hst).mpr h
    rw [if_pos (Or.inl ⟨rfl, h1⟩)]
    simp [rootedPath, joinNames_snoc st e h]

/-- The loop of `filepath.Clean` on a rooted path: the buffer holds the names
that lead to the place reached so far. -/
theorem cleanLoop_rooted (fuel : Nat) : ∀ (p : GoString) (st : List GoString), Plain st →
    cleanLoop true fuel p (rootedPath st) 1 = rootedPath ((elems fuel p).foldl pushElem st) ∧
      Plain ((elems fuel p).foldl pushElem st) := by
  induction fuel with
  | zero => intro p st hst; exact ⟨by simp [cleanLoop, elems], by simpa [elems] using hst⟩
  | succ fuel ih =>
    intro p st hst
    cases p with
    | nil => exact ⟨by simp [cleanLoop, elems], by simpa [elems] using hst⟩
    | cons c p =>
      simp only [cleanLoop, elems]
      by_cases hc : c = Separator
      · simp only [hc, if_true]
        exact ih p st hst
      · simp only [hc, if_false, List.foldl_cons]
        have hpl := elem_plain c p hc
        by_cases hd : c = Dot ∧ (p = [] ∨ p.head? = some Separator)
        · rw [if_pos hd]
          have he := (elem_eq_dot c p).mpr hd
          rw [he, dropWhile_of_head p hd.2]
          have hpe : pushElem st [Dot] = st := by
            unfold pushElem
            rw [if_pos rfl]
          rw [hpe]
          exact ih p st hst
        · rw [if_neg hd]
          have he1 : (c :: p.takeWhile fun x => decide (x ≠ Separator)) ≠ [Dot] :=
            fun h => hd ((elem_eq_dot c p).mp h)
          by_cases hdd : c = Dot ∧ p.head? = some Dot ∧ (p.tail = [] ∨ p.tail.head? = some Separator)
          · rw [if_pos hdd]
            have he := (elem_eq_dotdot c p).mpr hdd
            have hdrop : (p.dropWhile fun x => decide (x ≠ Separator)) = p.tail := by
              cases p with
              | nil => rfl
              | cons a t =>
                have ha : a = Dot := by simpa using hdd.2.1
                subst ha
                have : (Dot ≠ Separator) := by decide
                simp only [List.dropWhile, this, ne_eq, not_false_eq_true, decide_True,
                  List.tail_cons]
                exact dropWhile_of_head t hdd.2.2
            rw [he, hdrop]
            have hpe : pushElem st [Dot, Dot] = st.dropLast := by
              unfold pushElem
              rw [if_neg (show ([Dot, Dot] : GoString) ≠ [Dot] by decide), if_pos rfl]
            rw [hpe]
            by_cases hst0 : st = []
            · subst hst0
              have : ¬ (1 < (rootedPath []).length) := by simp [rootedPath, joinNames]
              rw [if_neg this]
              simp only [Bool.not_true, Bool.false_eq_true, if_false, List.dropLast_nil]
              exact ih p.tail [] hst
            · have hlt : 1 < (rootedPath st).length := by
                have := (rooted_length st hst).mpr hst0
                simp only [rootedPath, List.length_cons] at this ⊢
                omega
              rw [if_pos hlt]
              have hdec := List.dropLast_append_getLast hst0
              have hb := backtrack_rooted st.dropLast (st.getLast hst0) (by rw [hdec]; exact hst)
              rw [hdec] at hb
              rw [hb]
              exact ih p.tail st.dropLast (Plain_dropLast st hst)
          · rw [if_neg hdd]
            have he2 : (c :: p.takeWhile fun x => decide (x ≠ Separator)) ≠ [Dot, Dot] :=
              fun h => hdd ((elem_eq_dotdot c p).mp h)
            have hpe : pushElem st (c :: p.takeWhile fun x => decide (x ≠ Separator))
                = st ++ [c :: p.takeWhile fun x => decide (x ≠ Separator)] := by
              unfold pushElem
              rw [if_neg he1, if_neg he2]
            rw [hpe]
            have hr := rootedPath_snoc st (c :: p.takeWhile fun x => decide (x ≠ Separator)) hst
            simp only [] at hr ⊢
            rw [hr]
            exact ih _ _ (Plain_snoc st _ hst hpl)


theorem elems_plain (fuel : Nat) : ∀ p : GoString, Plain (elems fuel p) := by
  induction fuel with
  | zero => intro p n hn; simp [elems] at hn
  | succ fuel ih =>
    intro p
    cases p with
    | nil => intro n hn; simp [elems] at hn
    | cons c p =>
      simp only [elems]
      by_cases hc : c = Separator
      · simp only [hc, if_true]; exact ih p
      · simp only [hc, if_false]
        intro n hn
        rcases List.mem_cons.mp hn with h | h
        · rw [h]; exact elem_plain c p hc
        · exact ih _ n h

theorem foldl_pushElem_names (es : List GoString) :
    ∀ st : List GoString, Plain es → (∀ n ∈ st, IsName n) →
      ∀ n ∈ es.foldl pushElem st, IsName n := by
  induction es with
  | nil => intro st _ hst; simpa using hst
  | cons e es ih =>
    intro st hes hst
    simp only [List.foldl_cons]
    apply ih
    · exact fun n hn => hes n (List.mem_cons_of_mem _ hn)
    · have he := hes e (List.mem_cons_self _ _)
      unfold pushElem
      split_ifs with h1 h2
      · exact hst
      · exact fun n hn => hst n (List.dropLast_subset _ hn)
      · intro n hn
        rcases List.mem_append.mp hn with h | h
        · exact hst n h
        · rw [List.mem_singleton.mp h]; exact ⟨he.1, he.2, h1, h2⟩

/-- The names of a path are names. -/
theorem cleanNames_names (path : GoString) : ∀ n ∈ cleanNames path, IsName n :=
  foldl_pushElem_names _ [] (elems_plain _ _) (by simp)

theorem names_plain (names : List GoString) (h : ∀ n ∈ names, IsName n) : Plain names :=
  fun n hn => ⟨(h n hn).1, (h n hn).2.1⟩

/-- What `filepath.Clean` returns for a rooted path: the rooted path through
its names. -/
theorem Clean_rooted (path : GoString) (h : path.head? = some Separator) :
    Clean path = rootedPath (cleanNames path) := by
  cases path with
  | nil => simp at h
  | cons c t =>
    have hc : c = Separator := by simpa using h
    subst hc
    have h1 := cleanLoop_fuel true (t.length + 1) t.length t [Separator] 1 (by omega) (le_refl _)
    have h2 := (cleanLoop_rooted t.length t [] (by intro n hn; simp at hn)).1
    have h3 : rootedPath [] = [Separator] := rfl
    rw [h3] at h2
    simp only [Clean, List.head?_cons, decide_True, if_true, List.tail_cons, List.length_cons,
      cleanNames, elems]
    rw [if_neg (by simp), h1, h2]
    simp [rootedPath]

theorem takeWhile_name (n rest : GoString) (hn : Separator ∉ n)
    (hrest : rest = [] ∨ rest.head? = some Separator) :
    ((n ++ rest).takeWhile fun x => decide (x ≠ Separator)) = n ∧
      ((n ++ rest).dropWhile fun x => decide (x ≠ Separator)) = rest := by
  induction n with
  | nil =>
    simp only [List.nil_append]
    exact ⟨(takeWhile_eq_nil_iff_head rest).mpr hrest, dropWhile_of_head rest hrest⟩
  | cons a t ih =>
    have ha : a ≠ Separator := fun h => hn (h ▸ List.mem_cons_self _ _)
    have ht : Separator ∉ t := fun h => hn (List.mem_cons_of_mem _ h)
    have h1 : ((a :: (t ++ rest)).takeWhile fun x => decide (x ≠ Separator))
        = a :: ((t ++ rest).takeWhile fun x => decide (x ≠ Separator)) := by
      simp [List.takeWhile, ha]
    have h2 : ((a :: (t ++ rest)).dropWhile fun x => decide (x ≠ Separator))
        = ((t ++ rest).dropWhile fun x => decide (x ≠ Separator)) := by
      simp [List.dropWhile, ha]
    rw [List.cons_append, h1, h2, (ih ht).1, (ih ht).2]
    exact ⟨rfl, rfl⟩

/-- Splitting joined names gives the names back. -/
theorem elems_joinNames (names : List GoString) (hpl : Plain names) :
    ∀ fuel, (joinNames names).length ≤ fuel → elems fuel (joinNames names) = names := by
  induction names with
  | nil => intro fuel _; cases fuel <;> simp [joinNames, elems]
  | cons n ns ih =>
    intro fuel hf
    have hn := hpl n (List.mem_cons_self _ _)
    have hns : Plain ns := fun m hm => hpl m (List.mem_cons_of_mem _ hm)
    obtain ⟨c, t, rfl⟩ := List.exists_cons_of_ne_nil hn.1
    have hc : c ≠ Separator := fun h => hn.2 (h ▸ List.mem_cons_self _ _)
    have ht : Separator ∉ t := fun h => hn.2 (List.mem_cons_of_mem _ h)
    cases ns with
    | nil =>
      simp only [joinNames, List.length_cons] at hf ⊢
      obtain ⟨f, rfl⟩ : ∃ f, fuel = f + 1 := ⟨fuel - 1, by omega⟩
      have := takeWhile_name t [] ht (Or.inl rfl)
      simp only [List.append_nil] at this
      simp only [elems, hc, if_false, this.1, this.2]
      cases f <;> simp [elems]
    | cons m ms =>
      simp only [joinNames, List.length_cons, List.cons_append, List.length_append] at hf ⊢
      obtain ⟨f, rfl⟩ : ∃ f, fuel = f + 1 := ⟨fuel - 1, by omega⟩
      have := takeWhile_name t (Separator :: joinNames (m :: ms)) ht (Or.inr rfl)
      simp only [elems, hc, if_false, this.1, this.2]
      obtain ⟨g, rfl⟩ : ∃ g, f = g + 1 := ⟨f - 1, by omega⟩
      simp only [elems, if_true]
      rw [ih hns g (by omega)]

theorem foldl_pushElem_append (names : List GoString) (h : ∀ n ∈ names, IsName n) :
    ∀ st : List GoString, names.foldl pushElem st = st ++ names := by
  induction names with
  | nil => intro st; simp
  | cons n ns ih =>
    intro st
    have hn := h n (List.mem_cons_self _ _)
    have hp : pushElem st n = st ++ [n] := by
      unfold pushElem
      rw [if_neg hn.2.2.1, if_neg hn.2.2.2]
    simp only [List.foldl_cons, hp]
    rw [ih (fun m hm => h m (List.mem_cons_of_mem _ hm))]
    simp

/-- The names of the rooted path through `names` are `names`. -/
theorem cleanNames_rootedPath (names : List GoString) (h : ∀ n ∈ names, IsName n) :
    cleanNames (rootedPath names) = names := by
  simp only [cleanNames, rootedPath, List.length_cons, elems, if_true]
  rw [elems_joinNames names (names_plain names h) _ (le_refl _), foldl_pushElem_append names h]
  simp

/-- A rooted path through names is clean. -/
theorem Clean_rootedPath (names : List GoString) (h : ∀ n ∈ names, IsName n) :
    Clean (rootedPath names) = rootedPath names := by
  rw [Clean_rooted (rootedPath names) rfl, cleanNames_rootedPath names h]


/-! ## The relative path between two rooted paths -/

theorem joinNames_split (x : GoString) (xs : List GoString) :
    ∃ rest, joinNames (x :: xs) = x ++ rest ∧ (rest = [] ∨ rest.head? = some Separator) ∧
      (xs = [] → rest = []) ∧ (xs ≠ [] → rest = Separator :: joinNames xs) := by
  cases xs with
  | nil => exact ⟨[], by simp [joinNames], Or.inl rfl, fun _ => rfl, fun h => absurd rfl h⟩
  | cons m ms =>
    exact ⟨Separator :: joinNames (m :: ms), rfl, Or.inr rfl, fun h => by simp at h, fun _ => rfl⟩

/-- One element of the walk of `filepath.Rel`: where the element at `i` ends,
what it is, and where the next one starts. -/
theorem elem_step (s : GoString) (i : Nat) (x : GoString) (xs : List GoString)
    (hpl : Plain (x :: xs)) (hd : s.drop i = joinNames (x :: xs)) :
    elemEnd s i = i + x.length ∧ slice s i (i + x.length) = x ∧ i < s.length ∧
      (if i + x.length < s.length then i + x.length + 1 else i + x.length) ≤ s.length ∧
      s.drop (if i + x.length < s.length then i + x.length + 1 else i + x.length)
        = joinNames xs := by
  obtain ⟨rest, hj, hrest, hnil, hcons⟩ := joinNames_split x xs
  have hx := hpl x (List.mem_cons_self _ _)
  rw [hj] at hd
  have hlen : s.length - i = x.length + rest.length := by
    have := congrArg List.length hd
    simpa using this
  have hxl : 0 < x.length := List.length_pos.mpr hx.1
  have hdrop : s.drop (i + x.length) = rest := by
    have : s.drop (i + x.length) = (s.drop i).drop x.length := by
      rw [List.drop_drop, Nat.add_comm]
    rw [this, hd, List.drop_left]
  refine ⟨?_, ?_, by omega, ?_, ?_⟩
  · unfold elemEnd
    rw [hd, (takeWhile_name x rest hx.2 hrest).1]
  · unfold slice
    rw [hd, Nat.add_sub_cancel_left, List.take_left]
  · split_ifs <;> omega
  · by_cases hxs : xs = []
    · have hr := hnil hxs
      subst hr
      have : ¬ (i + x.length < s.length) := by simp at hlen; omega
      rw [if_neg this, hdrop, hxs]
      rfl
    · have hr := hcons hxs
      have hl : i + x.length < s.length := by
        rw [hr] at hlen
        simp at hlen
        omega
      rw [if_pos hl]
      have : s.drop (i + x.length + 1) = (s.drop (i + x.length)).drop 1 := by
        rw [List.drop_drop, Nat.add_comm]
      rw [this, hdrop, hr]
      rfl

theorem stripCommon_fst_subset (X : List GoString) :
    ∀ Y : List GoString, ∀ n ∈ (stripCommon X Y).1, n ∈ X := by
  induction X with
  | nil => intro Y n hn; cases Y <;> simp [stripCommon] at hn
  | cons x xs ih =>
    intro Y n hn
    cases Y with
    | nil => simpa [stripCommon] using hn
    | cons y ys =>
      simp only [stripCommon] at hn
      split_ifs at hn with h
      · exact List.mem_cons_of_mem _ (ih ys n hn)
      · exact hn

theorem stripCommon_snd_subset (X : List GoString) :
    ∀ Y : List GoString, ∀ n ∈ (stripCommon X Y).2, n ∈ Y := by
  induction X with
  | nil =>
    intro Y n hn
    cases Y with
    | nil => simp [stripCommon] at hn
    | cons y ys => simpa [stripCommon] using hn
  | cons x xs ih =>
    intro Y n hn
    cases Y with
    | nil => simp [stripCommon] at hn
    | cons y ys =>
      simp only [stripCommon] at hn
      split_ifs at hn with h
      · exact List.mem_cons_of_mem _ (ih ys n hn)
      · exact hn

/-- The walk of `filepath.Rel` over two paths that hold names from `i` and
`j` on: it stops after the names they have in common. -/
theorem relLoop_walk (base targ : GoString) (X : List GoString) :
    ∀ (Y : List GoString) (i j fuel : Nat), Plain X → Plain Y →
      i ≤ base.length → j ≤ targ.length →
      base.drop i = joinNames X → targ.drop j = joinNames Y → base.length - i ≤ fuel →
      ∃ b0 bi t0 ti, relLoop base targ fuel (i, i, j, j) = (b0, bi, t0, ti) ∧
        b0 ≤ base.length ∧ t0 ≤ targ.length ∧
        base.drop b0 = joinNames (stripCommon X Y).1 ∧
        targ.drop t0 = joinNames (stripCommon X Y).2 ∧
        (slice base b0 bi = [] ∨ slice base b0 bi ∈ (stripCommon X Y).1) := by
  induction X with
  | nil =>
    intro Y i j fuel _ _ hi hj hb ht _
    have hil : ¬ (i < base.length) := by
      have := congrArg List.length hb
      simp [joinNames] at this
      omega
    refine ⟨i, i, j, j, ?_, hi, hj, ?_, ?_, Or.inl (by simp [slice])⟩
    · cases fuel <;> simp [relLoop, hil]
    · cases Y <;> simpa [stripCommon] using hb
    · cases Y <;> simpa [stripCommon] using ht
  | cons x xs ih =>
    intro Y i j fuel hX hY hi hj hb ht hf
    cases Y with
    | nil =>
      have hjl : ¬ (j < targ.length) := by
        have := congrArg List.length ht
        simp [joinNames] at this
        omega
      refine ⟨i, i, j, j, ?_, hi, hj, by simpa [stripCommon] using hb,
        by simpa [stripCommon] using ht, Or.inl (by simp [slice])⟩
      cases fuel <;> simp [relLoop, hjl]
    | cons y ys =>
      obtain ⟨b1, b2, b3, b4, b5⟩ := elem_step base i x xs hX hb
      obtain ⟨t1, t2, t3, t4, t5⟩ := elem_step targ j y ys hY ht
      obtain ⟨f, rfl⟩ : ∃ f, fuel = f + 1 := ⟨fuel - 1, by omega⟩
      simp only [relLoop]
      rw [if_pos ⟨b3, t3⟩, b1, t1, b2, t2]
      by_cases hxy : x = y
      · subst hxy
        simp only [ne_eq, not_true_eq_false, if_false, stripCommon, if_true]
        have hx := hX x (List.mem_cons_self _ _)
        have hxl : 0 < x.length := List.length_pos.mpr hx.1
        exact ih ys _ _ f (fun m hm => hX m (List.mem_cons_of_mem _ hm))
          (fun m hm => hY m (List.mem_cons_of_mem _ hm)) b4 t4 b5 t5
          (by split_ifs <;> omega)
      · have hyx : y ≠ x := fun h => hxy h.symm
        simp only [ne_eq, hyx, not_false_eq_true, if_true, stripCommon, hxy, if_false]
        exact ⟨_, _, _, _, rfl, hi, hj, hb, ht, Or.inr (by rw [b2]; exact List.mem_cons_self _ _)⟩

theorem count_joinNames (names : List GoString) (h : Plain names) :
    (joinNames names).count Separator = names.length - 1 := by
  induction names with
  | nil => simp [joinNames]
  | cons n ns ih =>
    have hn := h n (List.mem_cons_self _ _)
    have hns : Plain ns := fun m hm => h m (List.mem_cons_of_mem _ hm)
    cases ns with
    | nil => simpa [joinNames] using List.count_eq_zero_of_not_mem hn.2
    | cons m ms =>
      have := ih hns
      simp only [joinNames, List.count_append, List.count_cons_self,
        List.count_eq_zero_of_not_mem hn.2, List.length_cons] at this ⊢
      omega

theorem joinNames_append (A B : List GoString) (hA : A ≠ []) (hB : B ≠ []) :
    joinNames (A ++ B) = joinNames A ++ Separator :: joinNames B := by
  induction A with
  | nil => exact absurd rfl hA
  | cons a t ih =>
    cases t with
    | nil =>
      cases B with
      | nil => exact absurd rfl hB
      | cons b u => rfl
    | cons c u =>
      have := ih (by simp)
      simp only [List.cons_append] at this ⊢
      simp only [joinNames, this, List.append_assoc, List.cons_append]

theorem joinNames_ups (k : Nat) :
    joinNames (List.replicate (k + 1) [Dot, Dot])
      = [Dot, Dot] ++ (List.replicate k [Separator, Dot, Dot]).flatten := by
  induction k with
  | zero => rfl
  | succ k ih =>
    rw [List.replicate_succ, joinNames_cons _ _ (by simp [List.replicate_succ]), ih]
    simp [List.replicate_succ]


/-- What `filepath.Rel` returns for two paths that clean to rooted paths: the
way from the names of the first to the names of the second. -/
theorem Rel_rooted (relUnrooted : GoString → GoString → Except GoError GoString)
    (basepath targpath : GoString) (B T : List GoString)
    (hB : ∀ n ∈ B, IsName n) (hT : ∀ n ∈ T, IsName n)
    (hb : Clean basepath = rootedPath B) (ht : Clean targpath = rootedPath T) :
    Rel relUnrooted basepath targpath = .ok (relNames B T) := by
  unfold Rel relNames
  simp only [hb, ht]
  by_cases hBT : B = T
  · subst hBT
    simp
  · have hne : rootedPath T ≠ rootedPath B := by
      intro h
      apply hBT
      rw [← cleanNames_rootedPath B hB, ← cleanNames_rootedPath T hT, h]
    rw [if_neg hne, if_neg hBT]
    have hdot : rootedPath B ≠ [Dot] := by
      simp only [rootedPath, ne_eq, List.cons.injEq, not_and]
      intro h
      exact absurd h (by decide)
    simp only [hdot, if_false]
    have hs1 : decide ((rootedPath B).head? = some Separator) = true := by simp [rootedPath]
    have hs2 : decide ((rootedPath T).head? = some Separator) = true := by simp [rootedPath]
    simp only [hs1, hs2, ne_eq, not_true_eq_false, if_false, Bool.true_eq_false]
    have hPB := names_plain B hB
    have hPT := names_plain T hT
    have hstart : relLoop (rootedPath B) (rootedPath T) ((rootedPath B).length + 1) (0, 0, 0, 0)
        = relLoop (rootedPath B) (rootedPath T) (rootedPath B).length (1, 1, 1, 1) := by
      have e1 : elemEnd (rootedPath B) 0 = 0 := by simp [elemEnd, rootedPath, List.takeWhile]
      have e2 : elemEnd (rootedPath T) 0 = 0 := by simp [elemEnd, rootedPath, List.takeWhile]
      have l1 : 0 < (rootedPath B).length := by simp [rootedPath]
      have l2 : 0 < (rootedPath T).length := by simp [rootedPath]
      simp only [relLoop]
      rw [if_pos ⟨l1, l2⟩, e1, e2]
      simp [slice, l1, l2]
    obtain ⟨b0, bi, t0, ti, hrun, hb0, ht0, hdb, hdt, hsl⟩ :=
      relLoop_walk (rootedPath B) (rootedPath T) B T 1 1 (rootedPath B).length hPB hPT
        (by simp [rootedPath]) (by simp [rootedPath]) (by simp [rootedPath])
        (by simp [rootedPath]) (by omega)
    rw [hstart, hrun]
    simp only []
    have hS1 : ∀ n ∈ (stripCommon B T).1, IsName n :=
      fun n hn => hB n (stripCommon_fst_subset B T n hn)
    have hS2 : ∀ n ∈ (stripCommon B T).2, IsName n :=
      fun n hn => hT n (stripCommon_snd_subset B T n hn)
    have hdd : slice (rootedPath B) b0 bi ≠ [Dot, Dot] := by
      rcases hsl with h | h
      · rw [h]; simp
      · exact (hS1 _ h).2.2.2
    rw [if_neg hdd]
    have hnil1 := joinNames_eq_nil _ (fun n hn => (hS1 n hn).1)
    have hnil2 := joinNames_eq_nil _ (fun n hn => (hS2 n hn).1)
    have hb0l : b0 = (rootedPath B).length ↔ (stripCommon B T).1 = [] := by
      rw [← hnil1, ← hdb, List.drop_eq_nil_iff]
      omega
    have ht0l : t0 = (rootedPath T).length ↔ (stripCommon B T).2 = [] := by
      rw [← hnil2, ← hdt, List.drop_eq_nil_iff]
      omega
    by_cases h1 : (stripCommon B T).1 = []
    · have := hb0l.mpr h1
      simp only [this, ne_eq, not_true_eq_false, if_false]
      rw [hdt, h1]
      simp
    · have hb0n : b0 ≠ (rootedPath B).length := fun h => h1 (hb0l.mp h)
      rw [if_pos hb0n]
      have hrest : slice (rootedPath B) b0 (rootedPath B).length
          = joinNames (stripCommon B T).1 := by
        unfold slice
        rw [hdb, List.take_of_length_le]
        rw [← hdb, List.length_drop]
      rw [hrest, count_joinNames _ (names_plain _ hS1)]
      obtain ⟨k, hk⟩ : ∃ k, (stripCommon B T).1.length = k + 1 :=
        ⟨(stripCommon B T).1.length - 1, by
          have := List.length_pos.mpr h1
          omega⟩
      rw [hk, Nat.add_sub_cancel, ← joinNames_ups k]
      by_cases h2 : (stripCommon B T).2 = []
      · have := ht0l.mpr h2
        simp only [this, ne_eq, not_true_eq_false, if_false, h2, List.append_nil]
      · have ht0n : t0 ≠ (rootedPath T).length := fun h => h2 (ht0l.mp h)
        rw [if_pos ht0n, hdt, joinNames_append _ _ (by simp [List.replicate_succ]) h2]

/-- The buffer of `filepath.Clean` on a path that is not rooted never starts
with a separator. -/
theorem cleanLoop_unrooted (fuel : Nat) : ∀ (p out : GoString) (dotdot : Nat),
    out.head? ≠ some Separator → (cleanLoop false fuel p out dotdot).head? ≠ some Separator := by
  induction fuel with
  | zero => intro p out dotdot h; simpa [cleanLoop] using h
  | succ fuel ih =>
    intro p out dotdot h
    cases p with
    | nil => simpa [cleanLoop] using h
    | cons c p =>
      simp only [cleanLoop]
      have htake : ∀ k, (out.take k).head? ≠ some Separator := by
        intro k
        cases out with
        | nil => simp
        | cons a t =>
          cases k with
          | zero => simp
          | succ k => simpa using h
      split_ifs with h1 h2 h3 h4 h5 h6
      · exact ih _ _ _ h
      · exact ih _ _ _ h
      · exact ih _ _ _ (htake _)
      · apply ih
        cases out with
        | nil => simp at h6
        | cons a t => simpa using h
      · apply ih
        have : out = [] := List.length_eq_zero.mp (by omega)
        subst this
        simp only [List.nil_append, List.head?_cons, ne_eq, Option.some.injEq]
        decide
      · exact ih _ _ _ h
      · apply ih
        cases out with
        | nil => simp at *
        | cons a t => simpa using h
      · apply ih
        cases out with
        | nil => simpa using h1
        | cons a t => simpa using h

theorem Clean_unrooted (path : GoString) (h : path.head? ≠ some Separator) :
    (Clean path).head? ≠ some Separator := by
  have hdot : ([Dot] : GoString).head? ≠ some Separator := by decide
  unfold Clean
  by_cases h1 : path = []
  · rw [if_pos h1]; exact hdot
  · rw [if_neg h1]
    simp only [h, decide_False, Bool.false_eq_true, if_false]
    split_ifs with h3
    · exact hdot
    · exact cleanLoop_unrooted _ _ _ _ (by simp)

/-- A path that is not rooted cannot be made relative to a rooted one. -/
theorem Rel_unrooted_target (relUnrooted : GoString → GoString → Except GoError GoString)
    (basepath targpath : GoString) (B : List GoString)
    (hb : Clean basepath = rootedPath B) (ht : targpath.head? ≠ some Separator) :
    Rel relUnrooted basepath targpath = .error (relError basepath targpath) := by
  have hc := Clean_unrooted targpath ht
  unfold Rel
  simp only [hb]
  have hne : Clean targpath ≠ rootedPath B := by
    intro h
    rw [h] at hc
    simp [rootedPath] at hc
  have hdot : rootedPath B ≠ [Dot] := by
    simp only [rootedPath, ne_eq, List.cons.injEq, not_and]
    intro h
    exact absurd h (by decide)
  simp only [hne, hdot, if_false]
  have hs1 : decide ((rootedPath B).head? = some Separator) = true := by simp [rootedPath]
  have hs2 : decide ((Clean targpath).head? = some Separator) = false := by simpa using hc
  simp [hs1, hs2]


theorem stripCommon_prefix (D : List GoString) (rel : List GoString) :
    stripCommon D (D ++ rel) = ([], rel) := by
  induction D with
  | nil => cases rel <;> rfl
  | cons d ds ih => simp [stripCommon, ih]

/-- The way from a directory to a place below it: the names that lead down. -/
theorem relNames_below (D rel : List GoString) (h : rel ≠ []) :
    relNames D (D ++ rel) = joinNames rel := by
  unfold relNames
  rw [if_neg, stripCommon_prefix]
  · simp
  · intro he
    have := congrArg List.length he
    simp only [List.length_append] at this
    have := List.length_pos.mpr h
    omega

/-- C8: the rewrite that `setupLogging` installs works with the working
directory as it was when the logger was built, cleaned. For every rooted
working directory `wd`: the installed handler captures the rooted path
through the names of `wd` (its elements without the empty ones and `.`, with
`..` resolved); a source whose file is a rooted path gets as its file the way
from the names of the working directory to the names of the file, which is
the names below the directory, joined by `/`, when the file lies below the
directory (`/a/b` and `/a/b/c/d.go` give `c/d.go`), with one `..` for every
name of the directory to leave otherwise; a source whose file is not rooted
cannot be made relative and is returned with its file as it was; and for any
captured directory, whenever `filepath.Rel` fails the attribute is returned as
it was, without a panic. -/
theorem ReplaceAttr_source_relative
    (relUnrooted : GoString → GoString → Except GoError GoString) (caseRanges : Nat → Nat)
    (levelStr wd : GoString) (w : World) (src : Source) (hwd : wd.head? = some Separator) :
    (setupLogging caseRanges (.ok wd) levelStr w).world.defaultLogger
        = .text (HandlerOptions.mk true (getLogLevel caseRanges levelStr)
            (rootedPath (cleanNames wd))) ∧
    (src.File.head? = some Separator →
      ReplaceAttr relUnrooted (rootedPath (cleanNames wd))
          (Attr.mk SourceKey (.Source (some src)))
        = .ok (Attr.mk SourceKey (.Source (some
            { src with File := relNames (cleanNames wd) (cleanNames src.File) })))) ∧
    (src.File.head? = some Separator → ∀ rel : List GoString, rel ≠ [] →
      cleanNames src.File = cleanNames wd ++ rel →
      ReplaceAttr relUnrooted (rootedPath (cleanNames wd))
          (Attr.mk SourceKey (.Source (some src)))
        = .ok (Attr.mk SourceKey (.Source (some { src with File := joinNames rel })))) ∧
    (src.File.head? ≠ some Separator →
      ReplaceAttr relUnrooted (rootedPath (cleanNames wd))
          (Attr.mk SourceKey (.Source (some src)))
        = .ok (Attr.mk SourceKey (.Source (some src)))) ∧
    (∀ (baseDir : GoString) (err : GoError), Rel relUnrooted baseDir src.File = .error err →
      ReplaceAttr relUnrooted baseDir (Attr.mk SourceKey (.Source (some src)))
        = .ok (Attr.mk SourceKey (.Source (some src)))) ∧
    ReplaceAttr sampleRelUnrooted (lit "/a/b")
        (Attr.mk SourceKey (.Source (some (Source.mk (lit "main.main") (lit "/a/b/c/d.go") 7))))
      = .ok (Attr.mk SourceKey (.Source (some (Source.mk (lit "main.main") (lit "c/d.go") 7)))) ∧
    ReplaceAttr sampleRelUnrooted (lit "/a/b")
        (Attr.mk SourceKey (.Source (some (Source.mk (lit "main.main") (lit "/a/x/y.go") 7))))
      = .ok (Attr.mk SourceKey (.Source (some (Source.mk (lit "main.main") (lit "../x/y.go") 7)))) ∧
    ReplaceAttr sampleRelUnrooted (lit "/a/b")
        (Attr.mk SourceKey (.Source (some (Source.mk (lit "main.main") (lit "x/y.go") 7))))
      = .ok (Attr.mk SourceKey (.Source (some (Source.mk (lit "main.main") (lit "x/y.go") 7)))) := by
  have hD := cleanNames_names wd
  have hbase : Clean (rootedPath (cleanNames wd)) = rootedPath (cleanNames wd) :=
    Clean_rootedPath _ hD
  have hrooted : src.File.head? = some Separator →
      ReplaceAttr relUnrooted (rootedPath (cleanNames wd))
          (Attr.mk SourceKey (.Source (some src)))
        = .ok (Attr.mk SourceKey (.Source (some
            { src with File := relNames (cleanNames wd) (cleanNames src.File) }))) := by
    intro hf
    have hrel := Rel_rooted relUnrooted (rootedPath (cleanNames wd)) src.File (cleanNames wd)
      (cleanNames src.File) hD (cleanNames_names _) hbase (Clean_rooted _ hf)
    simp [ReplaceAttr, relativeSource, hrel]
  have hfail : ∀ (baseDir : GoString) (err : GoError),
      Rel relUnrooted baseDir src.File = .error err →
      ReplaceAttr relUnrooted baseDir (Attr.mk SourceKey (.Source (some src)))
        = .ok (Attr.mk SourceKey (.Source (some src))) := by
    intro baseDir err he
    simp [ReplaceAttr, relativeSource, he]
  refine ⟨?_, hrooted, ?_, ?_, hfail, by decide, by decide, by decide⟩
  · simp [setupLogging, Exec.world, Clean_rooted wd hwd]
  · intro hf rel hne hrel
    rw [hrooted hf, hrel, relNames_below _ _ hne]
  · intro hf
    exact hfail _ _ (Rel_unrooted_target relUnrooted _ src.File (cleanNames wd) hbase hf)

theorem ReplaceAttr_source_relative_witness :
    (setupLogging sampleCaseRanges (.ok (lit "/a/./b//x/..")) (lit "info")
        World.start).world.defaultLogger
      = .text (HandlerOptions.mk true LevelInfo (lit "/a/b")) ∧
    ReplaceAttr sampleRelUnrooted (lit "/a/b")
        (Attr.mk SourceKey (.Source (some (Source.mk (lit "main.main") (lit "/a/b/c/./d.go") 7))))
      = .ok (Attr.mk SourceKey (.Source (some (Source.mk (lit "main.main") (lit "c/d.go") 7)))) :=
  have h := ReplaceAttr_source_relative sampleRelUnrooted sampleCaseRanges (lit "info")
    (lit "/a/./b//x/..") World.start (Source.mk (lit "main.main") (lit "/a/b/c/./d.go") 7)
    (by decide)
  ⟨h.1, h.2.2.1 (by decide) [lit "c", lit "d.go"] (by decide) (by decide)⟩


/-! ## The flag parser -/

theorem Set_valid (f : Flag) (v : GoString) (fs fs1 : FlagSet) (h : f.Set v fs = .ok fs1)
    (hv : fs.Valid) : fs1.Valid := by
  cases f with
  | config_file =>
    simp only [Flag.Set, Except.ok.injEq] at h
    subst h
    exact hv
  | log_level =>
    simp only [Flag.Set] at h
    split_ifs at h with hm
    simp only [Except.ok.injEq] at h
    subst h
    exact Or.inr hm

theorem parseArgs_valid (fs : FlagSet) (args : List GoString) :
    fs.Valid → (parseArgs fs args).flagSet.Valid := by
  induction fs, args using parseArgs.induct with
  | case1 fs => intro hv; simpa [parseArgs, Scan.flagSet] using hv
  | case2 fs arg args hk => intro hv; simpa [parseArgs, hk, Scan.flagSet] using hv
  | case3 fs arg args hk => intro hv; simpa [parseArgs, hk, Scan.flagSet] using hv
  | case4 fs arg args hk ih => intro hv; simpa [parseArgs, hk] using ih hv
  | case5 fs arg args help hk => intro hv; simpa [parseArgs, hk, Scan.flagSet] using hv
  | case6 fs arg args f value hk hne fs1 hs ih =>
    intro hv
    have := ih (Set_valid f value fs fs1 hs hv)
    simpa [parseArgs, hk, hne, hs] using this
  | case7 fs arg args f value hk hne err hs =>
    intro hv; simpa [parseArgs, hk, hne, hs, Scan.flagSet] using hv
  | case8 fs arg f value hk hne =>
    intro hv
    have hne2 : value = [] := by simpa using hne
    simpa [parseArgs, hk, hne2, Scan.flagSet] using hv
  | case9 fs arg f value hk hne v rest fs1 hs ih =>
    intro hv
    have hne2 : value = [] := by simpa using hne
    have := ih (Set_valid f v fs fs1 hs hv)
    simpa [parseArgs, hk, hne2, hs] using this
  | case10 fs arg f value hk hne v rest err hs =>
    intro hv
    have hne2 : value = [] := by simpa using hne
    simpa [parseArgs, hk, hne2, hs, Scan.flagSet] using hv

theorem setFromEnv_valid (S : Sources) (b : Bool) (f : Flag) (key : GoString) (fs : FlagSet)
    (hv : fs.Valid) : (setFromEnv S b f key fs).1.Valid := by
  unfold setFromEnv
  split_ifs
  · exact hv
  · cases hs : f.Set (S.Getenv key) fs with
    | ok fs1 => exact Set_valid f _ fs fs1 hs hv
    | error err => exact hv

theorem parseEnv_valid (S : Sources) (fs : FlagSet) (hv : fs.Valid) :
    (parseEnv S fs).1.Valid := by
  have h1 := setFromEnv_valid S fs.configFileSet .config_file (lit "C") fs hv
  have h2 := setFromEnv_valid S fs.configFileSet .config_file (lit "CONFIG_FILE")
    (setFromEnv S fs.configFileSet .config_file (lit "C") fs).1 h1
  have h3 := setFromEnv_valid S fs.logLevelSet .log_level (lit "LOG_LEVEL")
    (setFromEnv S fs.configFileSet .config_file (lit "CONFIG_FILE")
      (setFromEnv S fs.configFileSet .config_file (lit "C") fs).1).1 h2
  unfold parseEnv
  split
  · next fs1 err heq => rw [heq] at h1; exact h1
  · next fs1 heq =>
    rw [heq] at h2 h3
    split
    · next fs2 err heq2 => rw [heq2] at h2; exact h2
    · next fs2 heq2 => rw [heq2] at h3; exact h3

theorem setFromConfig_valid (c l : Bool) (fs : FlagSet) (kv : List (GoString × GoString)) :
    fs.Valid → (setFromConfig c l fs kv).1.Valid := by
  induction fs, kv using setFromConfig.induct c l with
  | case1 fs => intro hv; simpa [setFromConfig] using hv
  | case2 fs name value kv ht ih => intro hv; simpa [setFromConfig, ht] using ih hv
  | case3 fs name value kv f ht hp ih => intro hv; simpa [setFromConfig, ht, hp] using ih hv
  | case4 fs name value kv f ht hp fs1 hs ih =>
    intro hv
    have := ih (Set_valid f value fs fs1 hs hv)
    simpa [setFromConfig, ht, hp, hs] using this
  | case5 fs name value kv f ht hp err hs =>
    intro hv; simpa [setFromConfig, ht, hp, hs] using hv

theorem parseConfig_valid (S : Sources) (fs : FlagSet) (hv : fs.Valid) :
    (parseConfig S fs).1.Valid := by
  unfold parseConfig
  split_ifs
  · exact hv
  · split
    · exact hv
    · exact hv
    · exact hv
    · next kv heq =>
      have := setFromConfig_valid fs.configFileSet fs.logLevelSet fs kv hv
      split
      · next fs1 err h1 => rw [h1] at this; exact this
      · next fs1 h1 => rw [h1] at this; exact this

theorem declared_valid (b : Bool) : (FlagSet.declared b).Valid := by
  cases b
  · exact Or.inl rfl
  · exact Or.inr (by decide)

/-- Whatever `ff.Parse` returns, `cfg.logLevel` is empty or an enumerated literal. -/
theorem ffParse_valid (S : Sources) (args : List GoString) :
    (ff.Parse S args).logLevel = [] ∨ (ff.Parse S args).logLevel ∈ logLevels := by
  have h0 := parseArgs_valid (FlagSet.declared S.storesDefault) args (declared_valid _)
  have h1 := parseEnv_valid S _ h0
  have h2 := parseConfig_valid S _ h1
  unfold ff.Parse
  split
  · next fs err heq => rw [heq] at h0; exact h0
  · split
    · next fs1 err heq => rw [heq] at h1; exact h1
    · next fs1 heq =>
      rw [heq] at h2
      exact h2

theorem readProgramVariables_ok (ffParse : List GoString → ParseOutcome) (help : GoString)
    (args : List GoString) (w w1 : World) (cfg : config)
    (h : readProgramVariables ffParse help args w = ((cfg, none), w1)) :
    1 ≤ args.length ∧ (ffParse (args.drop 1)).err = none ∧
      cfg.logLevel = (ffParse (args.drop 1)).logLevel ∧ w1 = w := by
  unfold readProgramVariables at h
  split_ifs at h with hlen
  · simp at h
  · refine ⟨by omega, ?_⟩
    cases herr : (ffParse (args.drop 1)).err with
    | some err =>
      simp only [herr] at h
      split_ifs at h <;> simp at h
    | none =>
      simp only [herr, Prod.mk.injEq] at h
      refine ⟨rfl, ?_, h.2.symm⟩
      rw [← h.1.1]

theorem logLevels_forms (s : GoString) :
    s ∈ logLevels ↔ ∃ w ∈ levelWords, s = w ∨ s = upperCase w ∨ s = titleCase w := by
  constructor
  · intro h
    have hall : ∀ t ∈ logLevels, ∃ w ∈ levelWords, t = w ∨ t = upperCase w ∨ t = titleCase w := by
      decide
    exact hall s h
  · rintro ⟨w, hw, h⟩
    have hall : ∀ w ∈ levelWords, w ∈ logLevels ∧ upperCase w ∈ logLevels ∧ titleCase w ∈ logLevels := by
      decide
    obtain ⟨h1, h2, h3⟩ := hall w hw
    rcases h with rfl | rfl | rfl <;> assumption

/-- C6: whenever `readProgramVariables` succeeds, the `logLevel` it returns
is empty or one of the literals of `logLevels`; and `logLevels` is 15 distinct
strings, exactly the lower-case, upper-case and title-case forms of info,
trace, debug, warn and error. -/
theorem readProgramVariables_logLevel_enumerated (S : Sources) (help : GoString)
    (args : List GoString) (w w1 : World) (cfg : config)
    (h : readProgramVariables (ff.Parse S) help args w = ((cfg, none), w1)) :
    (cfg.logLevel = [] ∨ cfg.logLevel ∈ logLevels) ∧
    logLevels.length = 15 ∧ logLevels.Nodup ∧
    (∀ s, s ∈ logLevels ↔ ∃ w ∈ levelWords, s = w ∨ s = upperCase w ∨ s = titleCase w) := by
  obtain ⟨_, _, hl, _⟩ := readProgramVariables_ok _ _ _ _ _ _ h
  refine ⟨?_, by decide, by decide, logLevels_forms⟩
  rw [hl]
  exact ffParse_valid S _

theorem readProgramVariables_logLevel_enumerated_witness :
    (lit "Debug" = [] ∨ lit "Debug" ∈ logLevels) ∧ logLevels.length = 15 :=
  have h := readProgramVariables_logLevel_enumerated noSources (lit "usage")
    [lit "updater", lit "--log_level", lit "Debug"] World.start World.start
    (config.mk (lit "Debug")) (by decide)
  ⟨h.1, h.2.1⟩

/-! ## Precedence of the three sources -/

theorem Set_config_file (v : GoString) (fs fs1 : FlagSet)
    (h : Flag.config_file.Set v fs = .ok fs1) :
    fs1.logLevel = fs.logLevel ∧ fs1.logLevelSet = fs.logLevelSet := by
  simp only [Flag.Set, Except.ok.injEq] at h
  subst h
  exact ⟨rfl, rfl⟩

theorem Set_log_level (v : GoString) (fs fs1 : FlagSet)
    (h : Flag.log_level.Set v fs = .ok fs1) :
    fs1.logLevel = v ∧ fs1.logLevelSet = true ∧ fs1.configFilePath = fs.configFilePath := by
  simp only [Flag.Set] at h
  split_ifs at h
  simp only [Except.ok.injEq] at h
  subst h
  exact ⟨rfl, rfl, rfl⟩

/-- A scan that ends with `log_level` not set has left `cfg.logLevel` alone; a
scan that starts with it set ends with it set. -/
theorem parseArgs_logLevel (fs : FlagSet) (args : List GoString) :
    ((parseArgs fs args).flagSet.logLevelSet = false →
      (parseArgs fs args).flagSet.logLevel = fs.logLevel) ∧
    (fs.logLevelSet = true → (parseArgs fs args).flagSet.logLevelSet = true) := by
  have step : ∀ (f : Flag) (v : GoString) (fs fs1 : FlagSet) (sc : Scan),
      f.Set v fs = .ok fs1 →
      ((sc.flagSet.logLevelSet = false → sc.flagSet.logLevel = fs1.logLevel) ∧
        (fs1.logLevelSet = true → sc.flagSet.logLevelSet = true)) →
      ((sc.flagSet.logLevelSet = false → sc.flagSet.logLevel = fs.logLevel) ∧
        (fs.logLevelSet = true → sc.flagSet.logLevelSet = true)) := by
    intro f v fs fs1 sc hs ih
    cases f with
    | config_file =>
      obtain ⟨h1, h2⟩ := Set_config_file v fs fs1 hs
      rw [h1, h2] at ih
      exact ih
    | log_level =>
      obtain ⟨_, h2, _⟩ := Set_log_level v fs fs1 hs
      have hset := ih.2 h2
      exact ⟨fun hf => (by rw [hset] at hf; cases hf), fun _ => hset⟩
  induction fs, args using parseArgs.induct with
  | case1 fs => simp [parseArgs, Scan.flagSet]
  | case2 fs arg args hk => simp [parseArgs, hk, Scan.flagSet]
  | case3 fs arg args hk => simp [parseArgs, hk, Scan.flagSet]
  | case4 fs arg args hk ih => simpa [parseArgs, hk] using ih
  | case5 fs arg args help hk => simp [parseArgs, hk, Scan.flagSet]
  | case6 fs arg args f value hk hne fs1 hs ih =>
    have := step f value fs fs1 _ hs ih
    simpa [parseArgs, hk, hne, hs] using this
  | case7 fs arg args f value hk hne err hs => simp [parseArgs, hk, hne, hs, Scan.flagSet]
  | case8 fs arg f value hk hne =>
    have hne2 : value = [] := by simpa using hne
    simp [parseArgs, hk, hne2, Scan.flagSet]
  | case9 fs arg f value hk hne v rest fs1 hs ih =>
    have hne2 : value = [] := by simpa using hne
    have := step f v fs fs1 _ hs ih
    simpa [parseArgs, hk, hne2, hs] using this
  | case10 fs arg f value hk hne v rest err hs =>
    have hne2 : value = [] := by simpa using hne
    simp [parseArgs, hk, hne2, hs, Scan.flagSet]

theorem setFromEnv_config_file (S : Sources) (b : Bool) (key : GoString) (fs : FlagSet) :
    (setFromEnv S b .config_file key fs).2 = none ∧
    (setFromEnv S b .config_file key fs).1.logLevel = fs.logLevel ∧
    (setFromEnv S b .config_file key fs).1.logLevelSet = fs.logLevelSet := by
  unfold setFromEnv
  split_ifs <;> simp [Flag.Set]

/-- The environment stage, when it succeeds: `log_level` keeps the value of
the command line if that set it, and else takes the one of `LOG_LEVEL`. -/
theorem parseEnv_logLevel (S : Sources) (fs fs1 : FlagSet) (h : parseEnv S fs = (fs1, none)) :
    fs1.logLevel = (if fs.logLevelSet then fs.logLevel else (envLogLevel S).getD fs.logLevel) ∧
    fs1.logLevelSet = (fs.logLevelSet || (envLogLevel S).isSome) := by
  obtain ⟨a1, a2, a3⟩ := setFromEnv_config_file S fs.configFileSet (lit "C") fs
  obtain ⟨b1, b2, b3⟩ := setFromEnv_config_file S fs.configFileSet (lit "CONFIG_FILE")
    (setFromEnv S fs.configFileSet .config_file (lit "C") fs).1
  unfold parseEnv at h
  split at h
  · next g1 err heq => rw [heq] at a1; simp at a1
  · next g1 heq =>
    rw [heq] at b1 b2 b3 a2 a3
    simp only at b1 b2 b3 a2 a3
    split at h
    · next g2 err heq2 => rw [heq2] at b1; simp at b1
    · next g2 heq2 =>
      rw [heq2] at b2 b3
      simp only at b2 b3
      unfold setFromEnv at h
      by_cases hset : fs.logLevelSet = true
      · simp only [hset, true_or, if_true, Prod.mk.injEq, and_true] at h
        subst h
        simp [hset, b2, b3, a2, a3]
      · have hset2 : fs.logLevelSet = false := by simpa using hset
        by_cases henv : S.Getenv (lit "LOG_LEVEL") = []
        · simp only [henv, or_true, if_true, Prod.mk.injEq, and_true] at h
          subst h
          simp [hset2, b2, b3, a2, a3, envLogLevel, henv]
        · simp only [hset2, henv, or_self, if_false, Bool.false_eq_true] at h
          cases hs : Flag.log_level.Set (S.Getenv (lit "LOG_LEVEL")) g2 with
          | error err => simp [hs] at h
          | ok g3 =>
            simp only [hs, Prod.mk.injEq, and_true] at h
            subst h
            obtain ⟨c1, c2, _⟩ := Set_log_level _ _ _ hs
            simp [hset2, envLogLevel, henv, c1, c2]

theorem setFromConfig_provided (c : Bool) (fs : FlagSet) (kv : List (GoString × GoString)) :
    (setFromConfig c true fs kv).1.logLevel = fs.logLevel := by
  induction fs, kv using setFromConfig.induct c true with
  | case1 fs => simp [setFromConfig]
  | case2 fs name value kv ht ih => simpa [setFromConfig, ht] using ih
  | case3 fs name value kv f ht hp ih => simpa [setFromConfig, ht, hp] using ih
  | case4 fs name value kv f ht hp fs1 hs ih =>
    cases f with
    | config_file =>
      obtain ⟨h1, _⟩ := Set_config_file value fs fs1 hs
      rw [h1] at ih
      simpa [setFromConfig, ht, hp, hs] using ih
    | log_level => simp [provided] at hp
  | case5 fs name value kv f ht hp err hs => simp [setFromConfig, ht, hp, hs]

theorem configTarget_log_level (name : GoString) :
    configTarget name = some Flag.log_level ↔ name = lit "log_level" ∨ name = lit "LOG_LEVEL" := by
  unfold configTarget
  constructor
  · intro h
    split_ifs at h with h1 h2
    all_goals first | exact h2 | cases h
  · intro h
    have h1 : ¬ (name = lit "config_file" ∨ name = lit "c" ∨ name = lit "CONFIG_FILE"
        ∨ name = lit "C") := by
      rcases h with rfl | rfl <;> decide
    simp [h1, h]

theorem lastLogLevel_cons (name value : GoString) (kv : List (GoString × GoString)) :
    lastLogLevel ((name, value) :: kv)
      = if configTarget name = some Flag.log_level then some ((lastLogLevel kv).getD value)
        else lastLogLevel kv := by
  unfold lastLogLevel
  by_cases h : configTarget name = some Flag.log_level
  · have h2 := (configTarget_log_level name).mp h
    simp [List.filter_cons, h, h2, List.getLast?_cons]
  · have h2 : ¬ (name = lit "log_level" ∨ name = lit "LOG_LEVEL") :=
      fun hh => h ((configTarget_log_level name).mpr hh)
    simp [List.filter_cons, h, h2]

theorem setFromConfig_last (c : Bool) (fs : FlagSet) (kv : List (GoString × GoString)) :
    (setFromConfig c false fs kv).2 = none →
      (setFromConfig c false fs kv).1.logLevel = (lastLogLevel kv).getD fs.logLevel := by
  induction fs, kv using setFromConfig.induct c false with
  | case1 fs => simp [setFromConfig, lastLogLevel]
  | case2 fs name value kv ht ih =>
    intro h
    have h2 : (setFromConfig c false fs kv).2 = none := by simpa [setFromConfig, ht] using h
    simpa [setFromConfig, ht, lastLogLevel_cons] using ih h2
  | case3 fs name value kv f ht hp ih =>
    intro h
    have h2 : (setFromConfig c false fs kv).2 = none := by simpa [setFromConfig, ht, hp] using h
    have hf : f = .config_file := by
      cases f with
      | config_file => rfl
      | log_level => simp [provided] at hp
    subst hf
    simpa [setFromConfig, ht, hp, lastLogLevel_cons] using ih h2
  | case4 fs name value kv f ht hp fs1 hs ih =>
    intro h
    have h2 : (setFromConfig c false fs1 kv).2 = none := by
      simpa [setFromConfig, ht, hp, hs] using h
    have := ih h2
    cases f with
    | config_file =>
      obtain ⟨h1, _⟩ := Set_config_file value fs fs1 hs
      rw [h1] at this
      simpa [setFromConfig, ht, hp, hs, lastLogLevel_cons] using this
    | log_level =>
      obtain ⟨h1, _, _⟩ := Set_log_level value fs fs1 hs
      rw [h1] at this
      simp only [setFromConfig, ht, hp, hs, Bool.false_eq_true, if_false] at this ⊢
      rw [this]
      simp [ht, lastLogLevel_cons]
  | case5 fs name value kv f ht hp err hs =>
    intro h
    simp [setFromConfig, ht, hp, hs] at h

/-- The config file stage, when it succeeds: `log_level` keeps its value if an
earlier stage set it, and else takes the last one the file gives, if any. -/
theorem parseConfig_logLevel (S : Sources) (fs fs2 : FlagSet)
    (h : parseConfig S fs = (fs2, none)) :
    fs2.logLevel =
      (if fs.logLevelSet then fs.logLevel
       else if fs.configFilePath = [] then fs.logLevel
       else
        match S.OpenConfig fs.configFilePath with
        | .pairs kv => (lastLogLevel kv).getD fs.logLevel
        | _ => fs.logLevel) := by
  unfold parseConfig at h
  by_cases hp : fs.configFilePath = []
  · simp only [hp, if_true, Prod.mk.injEq, and_true] at h
    subst h
    simp [hp]
  · simp only [hp, if_false] at h
    cases ho : S.OpenConfig fs.configFilePath with
    | notExist =>
      simp only [ho, Prod.mk.injEq, and_true] at h
      subst h
      simp [ho]
    | openError err => simp [ho] at h
    | malformed err => simp [ho] at h
    | pairs kv =>
      simp only [ho] at h
      cases hl : fs.logLevelSet with
      | true =>
        have hprov := setFromConfig_provided fs.configFileSet fs kv
        rw [hl] at h
        split at h
        · simp at h
        · next g hg =>
          simp only [Prod.mk.injEq, and_true] at h
          subst h
          rw [hg] at hprov
          simpa using hprov
      | false =>
        have hlast := setFromConfig_last fs.configFileSet fs kv
        rw [hl] at h
        split at h
        · simp at h
        · next g hg =>
          simp only [Prod.mk.injEq, and_true] at h
          subst h
          rw [hg] at hlast
          simpa [hp] using hlast rfl

theorem argKind_long (f : Flag) : argKind (lit "--" ++ f.name) = .flag f [] := by
  cases f <;> decide

theorem argKind_longEq (f : Flag) (v : GoString) :
    argKind (lit "--" ++ f.name ++ lit "=" ++ v) = .flag f v := by
  cases f
  · have e : lit "--" ++ Flag.config_file.name ++ lit "="
        = [45, 45, 99, 111, 110, 102, 105, 103, 95, 102, 105, 108, 101, 61] := by decide
    have e2 : findLongFlag [99, 111, 110, 102, 105, 103, 95, 102, 105, 108, 101]
        = some .config_file := by decide
    rw [e]
    simp [argKind, e2, lit, encodeRune]
  · have e : lit "--" ++ Flag.log_level.name ++ lit "="
        = [45, 45, 108, 111, 103, 95, 108, 101, 118, 101, 108, 61] := by decide
    have e2 : findLongFlag [108, 111, 103, 95, 108, 101, 118, 101, 108] = some .log_level := by
      decide
    rw [e]
    simp [argKind, e2, lit, encodeRune]

theorem argKind_short : argKind (lit "-c") = .flag .config_file [] := by decide

theorem argKind_shortJoined (v : GoString) (hv : v ≠ []) :
    argKind (lit "-c" ++ v) = .flag .config_file v := by
  have e : lit "-c" = [45, 99] := by decide
  have e2 : findShortFlag 99 = some .config_file := by decide
  rw [e]
  simp [argKind, e2, lit, encodeRune, hv]

/-- The scan reads a flag written in one of the four forms and stores its
value, or fails when the value is not accepted. -/
theorem parseArgs_flag (g : CliFlag) (hg : g.wellFormed) (fs : FlagSet) (tail : List GoString) :
    parseArgs fs (g.args ++ tail)
      = (match g.flag.Set g.value fs with
         | .ok fs1 => parseArgs fs1 tail
         | .error err => .failed fs err) := by
  cases g with
  | long f v =>
    simp only [CliFlag.args, CliFlag.flag, CliFlag.value, List.cons_append, List.nil_append]
    rw [parseArgs, argKind_long]
    simp
  | longEq f v =>
    have hv : v ≠ [] := hg
    simp only [CliFlag.args, CliFlag.flag, CliFlag.value, List.cons_append, List.nil_append]
    rw [parseArgs, argKind_longEq]
    simp [hv]
  | short v =>
    simp only [CliFlag.args, CliFlag.flag, CliFlag.value, List.cons_append, List.nil_append]
    rw [parseArgs, argKind_short]
    simp
  | shortJoined v =>
    have hv : v ≠ [] := hg.1
    simp only [CliFlag.args, CliFlag.flag, CliFlag.value, List.cons_append, List.nil_append]
    rw [parseArgs, argKind_shortJoined v hv]
    simp [hv]

theorem parseArgs_endsScan (fs : FlagSet) (rest : List GoString) (h : EndsScan rest) :
    (parseArgs fs rest).flagSet = fs ∧ ∀ fs1 err, parseArgs fs rest ≠ .failed fs1 err := by
  rcases h with rfl | ⟨a, t, rfl, ha⟩
  · simp [parseArgs, Scan.flagSet]
  · rcases ha with ha | rfl
    · have hk : argKind a = .positional := by simp [argKind, ha]
      simp [parseArgs, hk, Scan.flagSet]
    · have hk : argKind (lit "--") = .terminator := by decide
      simp [parseArgs, hk, Scan.flagSet]

theorem givenValue_cons (f : Flag) (g : CliFlag) (gs : List CliFlag) :
    givenValue f (g :: gs)
      = if g.flag = f then some ((givenValue f gs).getD g.value) else givenValue f gs := by
  unfold givenValue
  by_cases h : g.flag = f
  · simp [List.filter_cons, h, List.getLast?_cons]
  · simp [List.filter_cons, h]

theorem stored_cons (g : CliFlag) (gs : List CliFlag) (fs fs1 : FlagSet)
    (h : g.flag.Set g.value fs = .ok fs1) : stored fs1 gs = stored fs (g :: gs) := by
  cases hf : g.flag with
  | config_file =>
    rw [hf] at h
    simp only [Flag.Set, Except.ok.injEq] at h
    subst h
    simp only [stored, givenValue_cons, hf]
    cases givenValue Flag.config_file gs <;> simp
  | log_level =>
    rw [hf] at h
    simp only [Flag.Set] at h
    split_ifs at h
    simp only [Except.ok.injEq] at h
    subst h
    simp only [stored, givenValue_cons, hf]
    cases givenValue Flag.log_level gs <;> simp

/-- A scan of flags written in the four forms, up to where the scan ends,
either fails or leaves every flag with the value written last for it. -/
theorem parseArgs_given (given : List CliFlag) (rest : List GoString) (hrest : EndsScan rest) :
    ∀ fs : FlagSet, (∀ g ∈ given, g.wellFormed) →
      (∃ fs1 err, parseArgs fs (given.flatMap CliFlag.args ++ rest) = .failed fs1 err) ∨
      (parseArgs fs (given.flatMap CliFlag.args ++ rest)).flagSet = stored fs given := by
  induction given with
  | nil =>
    intro fs _
    right
    have h0 : stored fs [] = fs := by simp [stored, givenValue]
    simpa [h0] using (parseArgs_endsScan fs rest hrest).1
  | cons g gs ih =>
    intro fs hwf
    have hg := hwf g (List.mem_cons_self _ _)
    have hgs : ∀ x ∈ gs, x.wellFormed := fun x hx => hwf x (List.mem_cons_of_mem _ hx)
    simp only [List.flatMap_cons, List.append_assoc]
    rw [parseArgs_flag g hg]
    cases hs : g.flag.Set g.value fs with
    | error err => exact Or.inl ⟨fs, err, rfl⟩
    | ok fs1 =>
      simp only
      rw [← stored_cons g gs fs fs1 hs]
      exact ih fs1 hgs

theorem setFromEnv_config_file_eq (S : Sources) (b : Bool) (key : GoString) (fs : FlagSet) :
    setFromEnv S b .config_file key fs
      = (if b = true ∨ S.Getenv key = [] then fs
         else { fs with configFilePath := S.Getenv key, configFileSet := true }, none) := by
  unfold setFromEnv
  split_ifs <;> simp [Flag.Set]

/-- The environment stage, when it succeeds: `config_file` keeps the value of
the command line if that set it, and else takes the one of `CONFIG_FILE`, or
of `C` when `CONFIG_FILE` is empty. -/
theorem parseEnv_configFile (S : Sources) (fs fs1 : FlagSet) (h : parseEnv S fs = (fs1, none)) :
    fs1.configFilePath =
      (if fs.configFileSet then fs.configFilePath
       else if S.Getenv (lit "CONFIG_FILE") = [] then
        (if S.Getenv (lit "C") = [] then fs.configFilePath else S.Getenv (lit "C"))
       else S.Getenv (lit "CONFIG_FILE")) := by
  unfold parseEnv at h
  simp only [setFromEnv_config_file_eq] at h
  have key : ∀ g : FlagSet, setFromEnv S fs.logLevelSet .log_level (lit "LOG_LEVEL") g = (fs1, none) →
      fs1.configFilePath = g.configFilePath := by
    intro g hg
    unfold setFromEnv at hg
    split_ifs at hg
    · simp only [Prod.mk.injEq, and_true] at hg
      rw [hg]
    · cases hs : Flag.log_level.Set (S.Getenv (lit "LOG_LEVEL")) g with
      | error err => simp [hs] at hg
      | ok g1 =>
        simp only [hs, Prod.mk.injEq, and_true] at hg
        subst hg
        exact (Set_log_level _ _ _ hs).2.2
  rw [key _ h]
  cases hset : fs.configFileSet <;> by_cases h1 : S.Getenv (lit "CONFIG_FILE") = [] <;>
    by_cases h2 : S.Getenv (lit "C") = [] <;> simp [hset, h1, h2]

/-- A parse without error went through the three stages, none of which
failed, and returns the level held after the last one. -/
theorem ffParse_stages (S : Sources) (args : List GoString) (h : (ff.Parse S args).err = none) :
    ∃ fs1 fs2, (∀ fs err, parseArgs (FlagSet.declared S.storesDefault) args ≠ .failed fs err) ∧
      parseEnv S (parseArgs (FlagSet.declared S.storesDefault) args).flagSet = (fs1, none) ∧
      parseConfig S fs1 = (fs2, none) ∧ (ff.Parse S args).logLevel = fs2.logLevel := by
  unfold ff.Parse at h ⊢
  generalize parseArgs (FlagSet.declared S.storesDefault) args = scan at h ⊢
  cases scan with
  | failed fs err => simp at h
  | done fs =>
    simp only at h ⊢
    generalize parseEnv S (Scan.done fs).flagSet = r at h ⊢
    obtain ⟨fs1, e⟩ := r
    cases e with
    | some err => simp at h
    | none =>
      simp only at h ⊢
      cases hr2 : parseConfig S fs1 with
      | mk fs2 e2 =>
        rw [hr2] at h
        simp only at h
        subst h
        exact ⟨fs1, fs2, by simp, rfl, hr2, rfl⟩
  | stopped fs tail =>
    simp only at h ⊢
    generalize parseEnv S (Scan.stopped fs tail).flagSet = r at h ⊢
    obtain ⟨fs1, e⟩ := r
    cases e with
    | some err => simp at h
    | none =>
      simp only at h ⊢
      cases hr2 : parseConfig S fs1 with
      | mk fs2 e2 =>
        rw [hr2] at h
        simp only at h
        subst h
        exact ⟨fs1, fs2, by simp, rfl, hr2, rfl⟩

/-- C7: whenever `readProgramVariables` succeeds on a command line that
writes flags in the forms `--name value`, `--name=value`, `-c value` or
`-cvalue` (up to the first argument that is no flag, if any), the `logLevel`
it returns is the value written last for `log_level` on the command line if
there is one, otherwise the value of the environment variable `LOG_LEVEL` if
it is set (to a value that is not empty), otherwise the value the config
file gives, and the initial content of the variable if no source gives a
value. -/
theorem readProgramVariables_precedence (S : Sources) (help prog : GoString)
    (given : List CliFlag) (rest : List GoString) (w w1 : World) (cfg : config)
    (hwf : ∀ g ∈ given, g.wellFormed) (hrest : EndsScan rest)
    (h : readProgramVariables (ff.Parse S) help (prog :: (given.flatMap CliFlag.args ++ rest)) w
      = ((cfg, none), w1)) :
    cfg.logLevel = firstOf (givenValue .log_level given) (envLogLevel S) (fileLogLevel S given)
      (FlagSet.declared S.storesDefault).logLevel := by
  obtain ⟨_, herr, hl, _⟩ := readProgramVariables_ok _ _ _ _ _ _ h
  simp only [List.drop_succ_cons, List.drop_zero] at herr hl
  rw [hl]
  have hscan := parseArgs_given given rest hrest (FlagSet.declared S.storesDefault) hwf
  obtain ⟨fs1, fs2, hnf, henv, hc, hlev⟩ := ffParse_stages S _ herr
  have hst : (parseArgs (FlagSet.declared S.storesDefault)
      (given.flatMap CliFlag.args ++ rest)).flagSet
        = stored (FlagSet.declared S.storesDefault) given := by
    rcases hscan with ⟨g, e, hf⟩ | hst
    · exact absurd hf (hnf g e)
    · exact hst
  rw [hst] at henv
  obtain ⟨e1, e2⟩ := parseEnv_logLevel S _ fs1 henv
  have e3 := parseEnv_configFile S _ fs1 henv
  have hcfg := parseConfig_logLevel S fs1 fs2 hc
  have hpath : fs1.configFilePath = configPath S given := by
    rw [e3]
    simp only [stored, configPath, FlagSet.declared, Bool.false_or]
    cases givenValue Flag.config_file given with
    | some v => simp
    | none =>
      by_cases h1 : S.Getenv (lit "CONFIG_FILE") = [] <;>
        by_cases h2 : S.Getenv (lit "C") = [] <;> simp [h1, h2]
  rw [hlev, hcfg, e1, e2, hpath]
  simp only [fileLogLevel, stored, Bool.false_or, FlagSet.declared]
  cases hg : givenValue Flag.log_level given with
  | some v => simp [firstOf]
  | none =>
    cases henvv : envLogLevel S with
    | some v => simp [firstOf]
    | none =>
      by_cases hp : configPath S given = []
      · simp [firstOf, hp]
      · cases ho : S.OpenConfig (configPath S given) with
        | pairs kv =>
          cases hlast : lastLogLevel kv <;> simp [firstOf, hp, hlast]
        | _ => simp [firstOf, hp]

theorem readProgramVariables_precedence_witness :
    lit "Debug" = firstOf (givenValue .log_level [.long .log_level (lit "Debug")])
      (envLogLevel layeredSources) (fileLogLevel layeredSources [.long .log_level (lit "Debug")])
      (FlagSet.declared layeredSources.storesDefault).logLevel :=
  readProgramVariables_precedence layeredSources (lit "usage") (lit "updater")
    [.long .log_level (lit "Debug")] [] World.start World.start (config.mk (lit "Debug"))
    (fun g hg => by rw [List.mem_singleton.mp hg]; trivial) (Or.inl rfl) (by decide)

/-- The three layers on sample inputs: the flag beats the variable and the
file, the variable beats the file, and the file is used when it is alone. -/
theorem precedence_samples :
    ff.Parse layeredSources [lit "--log_level", lit "Debug"] = ParseOutcome.mk none (lit "Debug") ∧
    ff.Parse layeredSources [lit "--log_level=Debug"] = ParseOutcome.mk none (lit "Debug") ∧
    ff.Parse layeredSources [lit "-", lit "--log_level", lit "debug"]
      = ParseOutcome.mk none (lit "debug") ∧
    ff.Parse layeredSources [] = ParseOutcome.mk none (lit "warn") ∧
    ff.Parse { layeredSources with Getenv := fun _ => [] } [lit "-ccfg.yaml"]
      = ParseOutcome.mk none (lit "error") ∧
    ff.Parse { layeredSources with Getenv := fun _ => [] } [] = ParseOutcome.mk none (lit "info") := by
  decide


/-! ## The help flag -/

/-- A scan that consumes all of `pre` goes on with what follows `pre`. -/
theorem parseArgs_append (fs : FlagSet) (pre : List GoString) :
    ∀ (fs1 : FlagSet) (rest : List GoString), parseArgs fs pre = .done fs1 →
      parseArgs fs (pre ++ rest) = parseArgs fs1 rest := by
  induction fs, pre using parseArgs.induct with
  | case1 fs =>
    intro fs1 rest h
    simp only [parseArgs, Scan.done.injEq] at h
    subst h
    rfl
  | case2 fs arg args hk => intro fs1 rest h; simp [parseArgs, hk] at h
  | case3 fs arg args hk => intro fs1 rest h; simp [parseArgs, hk] at h
  | case4 fs arg args hk ih =>
    intro fs1 rest h
    have h2 : parseArgs fs args = .done fs1 := by simpa [parseArgs, hk] using h
    simpa [parseArgs, hk] using ih fs1 rest h2
  | case5 fs arg args help hk => intro fs1 rest h; simp [parseArgs, hk] at h
  | case6 fs arg args f value hk hne g hs ih =>
    intro fs1 rest h
    have h2 : parseArgs g args = .done fs1 := by simpa [parseArgs, hk, hne, hs] using h
    simpa [parseArgs, hk, hne, hs] using ih fs1 rest h2
  | case7 fs arg args f value hk hne err hs =>
    intro fs1 rest h; simp [parseArgs, hk, hne, hs] at h
  | case8 fs arg f value hk hne =>
    intro fs1 rest h
    have hne2 : value = [] := by simpa using hne
    simp [parseArgs, hk, hne2] at h
  | case9 fs arg f value hk hne v tl g hs ih =>
    intro fs1 rest h
    have hne2 : value = [] := by simpa using hne
    have h2 : parseArgs g tl = .done fs1 := by simpa [parseArgs, hk, hne2, hs] using h
    simpa [parseArgs, hk, hne2, hs] using ih fs1 rest h2
  | case10 fs arg f value hk hne v tl err hs =>
    intro fs1 rest h
    have hne2 : value = [] := by simpa using hne
    simp [parseArgs, hk, hne2, hs] at h

theorem parseArgs_help (fs : FlagSet) (arg : GoString) (post : List GoString)
    (h : isHelpFlag arg = true) : parseArgs fs (arg :: post) = .failed fs .ErrHelp := by
  have hk : argKind arg = .unknown true := by
    simp only [isHelpFlag, decide_eq_true_eq] at h
    rcases h with rfl | rfl <;> decide
  simp [parseArgs, hk]

/-- C3 (as amended): for every argument list in which a help flag (`--help`
or `-h`) comes after the program name and is reached by the scan of the
arguments, that is, the arguments before it are all consumed as flags and
flag values that are accepted, `readProgramVariables` writes the help text to
the error stream and returns the error of the parser as it is, an error that
is the help condition, with the zero configuration; what follows the help
flag, valid or not, makes no difference. -/
theorem help_flag_reached (S : Sources) (help prog arg : GoString) (pre post : List GoString)
    (fs1 : FlagSet) (w : World)
    (hpre : parseArgs (FlagSet.declared S.storesDefault) pre = .done fs1)
    (harg : isHelpFlag arg = true) :
    ∃ err, (ff.Parse S (pre ++ arg :: post)).err = some err ∧ IsErrHelp err = true ∧
      readProgramVariables (ff.Parse S) help (prog :: (pre ++ arg :: post)) w
        = ((config.mk [], some err), { w with Stderr := w.Stderr ++ [.text (help ++ [0x0A])] }) := by
  have hscan : parseArgs (FlagSet.declared S.storesDefault) (pre ++ arg :: post)
      = .failed fs1 .ErrHelp := by
    rw [parseArgs_append _ _ fs1 _ hpre, parseArgs_help fs1 arg post harg]
  have hff : (ff.Parse S (pre ++ arg :: post)).err
      = some (Errorf (lit "parse args: ") .ErrHelp) := by
    simp [ff.Parse, hscan]
  refine ⟨_, hff, rfl, ?_⟩
  simp [readProgramVariables, hff, Errorf, IsErrHelp]

theorem help_flag_reached_witness :
    ∃ err, (ff.Parse noSources
        ([lit "--log_level", lit "debug"] ++ lit "--help" :: [lit "--log_level", lit "bogus"])).err
          = some err ∧ IsErrHelp err = true ∧
      readProgramVariables (ff.Parse noSources) (lit "usage")
          (lit "updater" ::
            ([lit "--log_level", lit "debug"] ++ lit "--help" :: [lit "--log_level", lit "bogus"]))
          World.start
        = ((config.mk [], some err),
            { World.start with
              Stderr := World.start.Stderr ++ [.text (lit "usage" ++ [0x0A])] }) :=
  help_flag_reached noSources (lit "usage") (lit "updater") (lit "--help")
    [lit "--log_level", lit "debug"] [lit "--log_level", lit "bogus"]
    { configFilePath := [], logLevel := lit "debug", configFileSet := false, logLevelSet := true }
    World.start (by decide) (by decide)

/-- C3 fails as stated: with a `log_level` value outside the enumeration
before the help flag, the scan fails at that value before it reaches the help
flag; `readProgramVariables` returns an error that is not the help condition,
wrapped as "ff.Parse: ...", and writes nothing. -/
theorem help_flag_after_invalid_level :
    readProgramVariables (ff.Parse noSources) (lit "usage")
        [lit "updater", lit "--log_level", lit "bogus", lit "--help"] World.start
      = ((config.mk [],
          some (Errorf (lit "ff.Parse: ")
            (Errorf (lit "parse args: ") (errorsNew (lit "log_level: invalid value"))))),
          World.start) ∧
    IsErrHelp (Errorf (lit "ff.Parse: ")
      (Errorf (lit "parse args: ") (errorsNew (lit "log_level: invalid value")))) = false := by
  decide

end Updater
